import Mathlib

/-!
Shallow embedding of the dofs storage engine (`src/packages/dofs/src/Fs.ts`).

The SQLite-backed state is modelled as explicit lists of rows:
`dofs_files` as `List FileRow`, `dofs_chunks` as `List ChunkRow`, and the
`dofs_meta` keys `device_size` / `space_used` as fields of `FsState`.
Byte buffers (`Uint8Array` / `ArrayBuffer`) are `List Nat`.
JavaScript exceptions are modelled by an error code result; since SQL
mutations performed before a `throw` persist in the real store, every
mutating operation returns its (possibly partially mutated) state
alongside the outcome (`Res`).  `Date.now()` is passed in as a `now`
argument.  Read-only operations return a plain `Except`.
-/

set_option autoImplicit false

instance {ε α : Type} [DecidableEq ε] [DecidableEq α] : DecidableEq (Except ε α) := fun x y =>
  match x, y with
  | .ok a, .ok b => if h : a = b then .isTrue (by rw [h]) else .isFalse (by simp [h])
  | .error e, .error f => if h : e = f then .isTrue (by rw [h]) else .isFalse (by simp [h])
  | .ok _, .error _ => .isFalse (by simp)
  | .error _, .ok _ => .isFalse (by simp)

namespace Dofs

/-- POSIX-style error names thrown by the engine.  `ERANGE` models the
JavaScript `RangeError` thrown by `Uint8Array.prototype.set` on overflow,
and `EDIVERGE` models non-termination of the `write` loop (reachable only
with `chunkSize = 0`). -/
inductive Err where
  | ENOENT
  | EEXIST
  | ENOTEMPTY
  | EISDIR
  | ENOSPC
  | ERANGE
  | EDIVERGE
  deriving DecidableEq, Repr

/-- The `kind` tag stored in the serialized attribute record. -/
inductive FileKind where
  | Directory
  | File
  | Symlink
  deriving DecidableEq, Repr

/-- The attribute record stored (as JSON) in the `attr` column of `dofs_files`. -/
structure Attr where
  ino : Nat
  size : Nat
  blocks : Nat
  atime : Nat
  mtime : Nat
  ctime : Nat
  crtime : Nat
  kind : FileKind
  perm : Nat
  nlink : Nat
  uid : Nat
  gid : Nat
  rdev : Nat
  flags : Nat
  blksize : Nat
  deriving DecidableEq, Repr

/-- One row of the `dofs_files` table.  `data` is the symlink target bytes
(NULL for files and directories). -/
structure FileRow where
  ino : Nat
  name : String
  parent : Option Nat
  is_dir : Bool
  attr : Attr
  data : Option (List Nat)
  deriving DecidableEq, Repr

/-- One row of the `dofs_chunks` table.  The `data` blob and the `length`
column are stored separately, exactly as in the schema. -/
structure ChunkRow where
  ino : Nat
  offset : Nat
  data : List Nat
  length : Nat
  deriving DecidableEq, Repr

/-- The whole persistent state of one filesystem instance, plus the
constructor-supplied chunk size. -/
structure FsState where
  chunkSize : Nat
  device_size : Nat
  space_used : Nat
  files : List FileRow
  chunks : List ChunkRow
  deriving DecidableEq, Repr

/-- Outcome of a mutating engine call: the result or thrown error code,
together with the state of the store after the call (mutations done
before a throw persist). -/
inductive Res (α : Type) where
  | ok (a : α) (s : FsState)
  | err (e : Err) (s : FsState)
  deriving DecidableEq

/-! ### Path handling (`path.split('/').filter(Boolean)`)

JavaScript `String.prototype.split('/')` is modelled by a structurally
recursive split over the character list of the string (same semantics:
`"".split('/') = [""]`, `"/a".split('/') = ["", "a"]`, …). -/

/-- Worker for `jsSplitSlash`: `acc` is the current segment, reversed. -/
def splitSlashAux : List Char → List Char → List String
  | [], acc => [String.mk acc.reverse]
  | c :: rest, acc =>
    if c = '/' then String.mk acc.reverse :: splitSlashAux rest []
    else splitSlashAux rest (c :: acc)

/-- `path.split('/')`. -/
def jsSplitSlash (s : String) : List String :=
  splitSlashAux s.data []

/-- `path.split('/').filter(Boolean)` from the source. -/
def pathParts (path : String) : List String :=
  (jsSplitSlash path).filter (fun x => x ≠ "")

/-- JavaScript `Array.prototype.join('/')`. -/
def jsJoin : List String → String
  | [] => ""
  | [x] => x
  | x :: y :: rest => x ++ "/" ++ jsJoin (y :: rest)

/-- `'/' + parts.join('/')`: how the source rebuilds a parent path from
the leading segments. -/
def joinParts (l : List String) : String :=
  "/" ++ jsJoin l

/-- Last path segment (`parts[parts.length - 1]`); only used on nonempty
part lists. -/
def leafName (parts : List String) : String :=
  parts.getLast?.getD ""

/-! ### Row lookups (SQL `SELECT`s) -/

/-- `SELECT ... FROM dofs_files WHERE parent = ? AND name = ?` (first row). -/
def lookupChild (files : List FileRow) (parent : Nat) (name : String) : Option FileRow :=
  files.find? (fun r => r.parent == some parent && r.name == name)

/-- `SELECT ... FROM dofs_files WHERE ino = ?` (first row). -/
def lookupIno (files : List FileRow) (ino : Nat) : Option FileRow :=
  files.find? (fun r => r.ino == ino)

/-- The directory walk inside `resolvePathToInode`, one `(parent, name)`
lookup per remaining segment. -/
def resolveParts (s : FsState) : List String → Nat → Except Err Nat
  | [], parent => .ok parent
  | name :: rest, parent =>
    match lookupChild s.files parent name with
    | some r => resolveParts s rest r.ino
    | none => .error .ENOENT

/-- `resolvePathToInode`: `/` or the empty string resolve to the root
inode 1; otherwise walk the segments from the root. -/
def resolvePathToInode (s : FsState) (path : String) : Except Err Nat :=
  if path = "/" ∨ path = "" then .ok 1
  else resolveParts s (pathParts path) 1

/-- `allocInode`: `SELECT MAX(ino)` + 1, or 2 when the table is empty. -/
def allocInode (s : FsState) : Nat :=
  match s.files with
  | [] => 2
  | _ => (s.files.map (fun r => r.ino)).foldl Nat.max 0 + 1

/-- `mode & ~umask & 0o7777` on JavaScript 32-bit integers. -/
def permOf (mode umask : Nat) : Nat :=
  Nat.land mode (Nat.xor 4095 (Nat.land umask 4095))

/-- Fresh attribute record as built by `create` / `mkdir` / `symlink` /
`rootDirAttr` (they differ only in kind, perm, nlink and size). -/
def mkAttr (ino now : Nat) (kind : FileKind) (perm nlink size : Nat) : Attr :=
  { ino := ino, size := size, blocks := 0, atime := now, mtime := now, ctime := now,
    crtime := now, kind := kind, perm := perm, nlink := nlink, uid := 0, gid := 0,
    rdev := 0, flags := 0, blksize := 512 }

/-- State after `ensureSchema` on an empty store: the two meta rows and the
root directory row. -/
def initState (chunkSize now : Nat) : FsState :=
  { chunkSize := chunkSize
    device_size := 1073741824
    space_used := 0
    files := [⟨1, "/", none, true, mkAttr 1 now .Directory 0o755 2 0, none⟩]
    chunks := [] }

/-! ### Options records -/

/-- `CreateOptions = { mode?, umask? }`. -/
structure CreateOptions where
  mode : Option Nat := none
  umask : Option Nat := none
  deriving DecidableEq, Repr

/-- `MkdirOptions = { recursive? } & CreateOptions`.  The `recursive`
field is recognized in the source's type but never read by `mkdir`. -/
structure MkdirOptions where
  recursive : Option Bool := none
  mode : Option Nat := none
  umask : Option Nat := none
  deriving DecidableEq, Repr

/-! ### Directory-entry operations -/

/-- `create(path, options?)`. -/
def create (s : FsState) (path : String) (options : CreateOptions) (now : Nat) : Res Unit :=
  let parts := pathParts path
  if parts = [] then .err .EEXIST s
  else
    let name := leafName parts
    let parentPath := joinParts parts.dropLast
    match resolvePathToInode s parentPath with
    | .error e => .err e s
    | .ok parent =>
      match lookupChild s.files parent name with
      | some _ => .err .EEXIST s
      | none =>
        let ino := allocInode s
        let perm := permOf (options.mode.getD 0o644) (options.umask.getD 0)
        let attr := mkAttr ino now .File perm 1 0
        .ok () { s with files := s.files ++ [⟨ino, name, some parent, false, attr, none⟩] }

/-- `mkdir(path, options?)`.  Note: the source never reads
`options.recursive`; missing intermediates always fail via
`resolvePathToInode`. -/
def mkdir (s : FsState) (path : String) (options : MkdirOptions) (now : Nat) : Res Unit :=
  let parts := pathParts path
  if parts = [] then .err .EEXIST s
  else
    let name := leafName parts
    let parentPath := joinParts parts.dropLast
    match resolvePathToInode s parentPath with
    | .error e => .err e s
    | .ok parent =>
      match lookupChild s.files parent name with
      | some _ => .err .EEXIST s
      | none =>
        let ino := allocInode s
        let perm := permOf (options.mode.getD 0o755) (options.umask.getD 0)
        let attr := mkAttr ino now .Directory perm 2 0
        .ok () { s with files := s.files ++ [⟨ino, name, some parent, true, attr, none⟩] }

/-- `TextEncoder().encode(target)`; claims only involve ASCII targets, for
which the UTF-8 bytes are the character codes. -/
def encodeStr (t : String) : List Nat :=
  t.data.map (fun c => c.toNat)

/-- `symlink(target, path)`. -/
def symlink (s : FsState) (target path : String) (now : Nat) : Res Unit :=
  let parts := pathParts path
  if parts = [] then .err .EEXIST s
  else
    let name := leafName parts
    let parentPath := joinParts parts.dropLast
    match resolvePathToInode s parentPath with
    | .error e => .err e s
    | .ok parent =>
      match lookupChild s.files parent name with
      | some _ => .err .EEXIST s
      | none =>
        let ino := allocInode s
        let attr := mkAttr ino now .Symlink 0o777 1 target.length
        .ok () { s with files := s.files ++ [⟨ino, name, some parent, false, attr, some (encodeStr target)⟩] }

/-- Sum of the `length` column over a list of chunk rows (`SELECT SUM(length)`). -/
def sumLengths (chunks : List ChunkRow) : Nat :=
  chunks.foldl (fun acc c => acc + c.length) 0

/-- `updateFileSizeAndSpaceUsed(ino)`: recompute the inode's `attr.size`
from its chunks and the global `space_used` from all chunks. -/
def updateFileSizeAndSpaceUsed (s : FsState) (ino : Nat) : FsState :=
  let size := sumLengths (s.chunks.filter (fun c => c.ino == ino))
  let files := s.files.map (fun r =>
    if r.ino == ino then { r with attr := { r.attr with size := size } } else r)
  { s with files := files, space_used := sumLengths s.chunks }

/-- `unlink(path)`: delete the files row and all chunk rows, then refresh
accounting. -/
def unlink (s : FsState) (path : String) : Res Unit :=
  match resolvePathToInode s path with
  | .error e => .err e s
  | .ok ino =>
    match lookupIno s.files ino with
    | none => .err .ENOENT s
    | some row =>
      if row.is_dir then .err .EISDIR s
      else
        let s' := { s with files := s.files.filter (fun r => !(r.ino == ino)),
                           chunks := s.chunks.filter (fun c => !(c.ino == ino)) }
        .ok () (updateFileSizeAndSpaceUsed s' ino)

/-- `rmdir(path)`: fails `ENOTEMPTY` when child rows exist, otherwise
deletes the files row (chunks rows are not touched). -/
def rmdir (s : FsState) (path : String) : Res Unit :=
  match resolvePathToInode s path with
  | .error e => .err e s
  | .ok ino =>
    if 0 < (s.files.filter (fun r => r.parent == some ino)).length then .err .ENOTEMPTY s
    else .ok () { s with files := s.files.filter (fun r => !(r.ino == ino)) }

/-- `listDir(path)`: the child names preceded by the synthetic `.` and `..`. -/
def listDir (s : FsState) (path : String) : Except Err (List String) :=
  match resolvePathToInode s path with
  | .error e => .error e
  | .ok ino =>
    .ok ("." :: ".." :: (s.files.filter (fun r => r.parent == some ino)).map (fun r => r.name))

/-- The `Stat` record returned by `stat`. -/
structure Stat where
  isFile : Bool
  isDirectory : Bool
  size : Nat
  mode : Nat
  uid : Nat
  gid : Nat
  mtime : Nat
  ctime : Nat
  atime : Nat
  crtime : Nat
  blocks : Nat
  nlink : Nat
  rdev : Nat
  flags : Nat
  blksize : Nat
  kind : FileKind
  deriving DecidableEq, Repr

/-- Builds the `Stat` record from a files row, field for field. -/
def mkStat (row : FileRow) : Stat :=
  { isFile := !row.is_dir, isDirectory := row.is_dir, size := row.attr.size,
    mode := row.attr.perm, uid := row.attr.uid, gid := row.attr.gid,
    mtime := row.attr.mtime, ctime := row.attr.ctime, atime := row.attr.atime,
    crtime := row.attr.crtime, blocks := row.attr.blocks, nlink := row.attr.nlink,
    rdev := row.attr.rdev, flags := row.attr.flags, blksize := row.attr.blksize,
    kind := row.attr.kind }

/-- `stat(path)` (read-only). -/
def stat (s : FsState) (path : String) : Except Err Stat :=
  match resolvePathToInode s path with
  | .error e => .error e
  | .ok ino =>
    match lookupIno s.files ino with
    | none => .error .ENOENT
    | some row => .ok (mkStat row)

/-- `rename(oldPath, newPath)`: resolves both `(parent, leaf)` pairs,
deletes an existing destination (refusing a non-empty directory), then
re-points the source row.  Note: no `space_used` refresh happens. -/
def rename (s : FsState) (oldPath newPath : String) : Res Unit :=
  let oldParts := pathParts oldPath
  let newParts := pathParts newPath
  if oldParts = [] ∨ newParts = [] then .err .ENOENT s
  else
    let oldName := leafName oldParts
    let newName := leafName newParts
    match resolvePathToInode s (joinParts oldParts.dropLast) with
    | .error e => .err e s
    | .ok oldParent =>
      match resolvePathToInode s (joinParts newParts.dropLast) with
      | .error e => .err e s
      | .ok newParent =>
        match lookupChild s.files oldParent oldName with
        | none => .err .ENOENT s
        | some oldRow =>
          let step : Res Unit :=
            match lookupChild s.files newParent newName with
            | some newRow =>
              if newRow.is_dir ∧
                  0 < (s.files.filter (fun r => r.parent == some newRow.ino)).length then
                .err .ENOTEMPTY s
              else
                .ok () { s with files := s.files.filter (fun r => !(r.ino == newRow.ino)),
                                chunks := s.chunks.filter (fun c => !(c.ino == newRow.ino)) }
            | none => .ok () s
          match step with
          | .err e s' => .err e s'
          | .ok _ s' =>
            .ok () { s' with files := s'.files.map (fun r =>
              if r.ino == oldRow.ino then { r with parent := some newParent, name := newName } else r) }

/-! ### Chunk I/O -/

/-- `loadChunk`: the stored blob for `(ino, offset)`, or a zero-filled
`chunkSize` buffer when the row is absent. -/
def loadChunkL (chunks : List ChunkRow) (ino off chunkSize : Nat) : List Nat :=
  match chunks.find? (fun c => c.ino == ino && c.offset == off) with
  | some c => c.data
  | none => List.replicate chunkSize 0

/-- `target.set(src, pos)` on `Uint8Array`s: in-place overlay, throwing
`RangeError` (here `none`) when the source does not fit. -/
def setBytes (target src : List Nat) (pos : Nat) : Option (List Nat) :=
  if pos + src.length ≤ target.length then
    some (target.take pos ++ src ++ target.drop (pos + src.length))
  else none

/-- `INSERT ... ON CONFLICT(ino, offset) DO UPDATE SET data, length`. -/
def upsertChunk (chunks : List ChunkRow) (row : ChunkRow) : List ChunkRow :=
  if chunks.any (fun c => c.ino == row.ino && c.offset == row.offset) then
    chunks.map (fun c =>
      if c.ino == row.ino && c.offset == row.offset then
        { c with data := row.data, length := row.length }
      else c)
  else chunks ++ [row]

/-- The chunk-slicing `while (written < buf.length)` loop of `write`.
`fuel` only bounds the iteration count so the definition is structural;
with `0 < chunkSize` every iteration makes progress, and the initial fuel
`buf.length` is never exhausted (`EDIVERGE` models the infinite loop a
`chunkSize = 0` instance would enter).  On an error the chunk rows
upserted so far are kept, as the SQL writes persist past a thrown
exception. -/
def writeChunksLoop (chunkSize ino offset : Nat) (buf : List Nat) :
    Nat → Nat → List ChunkRow → Except Err Unit × List ChunkRow
  | 0, written, chunks =>
    if written < buf.length then (.error .EDIVERGE, chunks) else (.ok (), chunks)
  | fuel + 1, written, chunks =>
    if written < buf.length then
      let absOffset := offset + written
      let chunkOffset := (absOffset / chunkSize) * chunkSize
      let chunkOffInChunk := absOffset % chunkSize
      let writeLen := min (chunkSize - chunkOffInChunk) (buf.length - written)
      let chunkData := loadChunkL chunks ino chunkOffset chunkSize
      match setBytes chunkData ((buf.drop written).take writeLen) chunkOffInChunk with
      | none => (.error .ERANGE, chunks)
      | some newData =>
        let thisEnd := chunkOffInChunk + writeLen
        let chunkLength := if thisEnd < chunkSize then thisEnd else chunkSize
        writeChunksLoop chunkSize ino offset buf fuel (written + writeLen)
          (upsertChunk chunks ⟨ino, chunkOffset, newData.take chunkLength, chunkLength⟩)
    else (.ok (), chunks)

/-- `write(path, data, { offset? })`. -/
def write (s : FsState) (path : String) (data : List Nat) (offset? : Option Nat) (now : Nat) :
    Res Unit :=
  let resolved : Res Nat :=
    match resolvePathToInode s path with
    | .ok i => .ok i s
    | .error .ENOENT =>
      match create s path {} now with
      | .ok _ s2 =>
        match resolvePathToInode s2 path with
        | .ok i => .ok i s2
        | .error e => .err e s2
      | .err e s2 => .err e s2
    | .error e => .err e s
  match resolved with
  | .err e s2 => .err e s2
  | .ok ino s2 =>
    let offset := offset?.getD 0
    let fileSize := (match lookupIno s2.files ino with
      | some r => r.attr.size
      | none => 0)
    let endOffset := offset + data.length
    let additional := if fileSize < endOffset then endOffset - fileSize else 0
    if s2.device_size < s2.space_used + additional then .err .ENOSPC s2
    else
      match writeChunksLoop s2.chunkSize ino offset data data.length 0 s2.chunks with
      | (.error e, chunks') => .err e { s2 with chunks := chunks' }
      | (.ok _, chunks') => .ok () (updateFileSizeAndSpaceUsed { s2 with chunks := chunks' } ino)

/-- `truncate(path, size)`: delete the chunks from the last chunk boundary
on, then (for a non-aligned size) try to trim a last partial chunk, then
refresh accounting. -/
def truncate (s : FsState) (path : String) (size : Nat) : Res Unit :=
  match resolvePathToInode s path with
  | .error e => .err e s
  | .ok ino =>
    let cs := s.chunkSize
    let firstExcessChunk := (size / cs) * cs
    let s1 := { s with chunks := s.chunks.filter (fun c =>
      !(c.ino == ino && decide (firstExcessChunk ≤ c.offset))) }
    let s2 :=
      if size % cs ≠ 0 then
        let lastLen := size % cs
        let chunkData := (loadChunkL s1.chunks ino firstExcessChunk cs).take lastLen
        { s1 with chunks := s1.chunks.map (fun c =>
            if c.ino == ino && c.offset == firstExcessChunk then
              { c with data := chunkData, length := lastLen }
            else c) }
      else s1
    .ok () (updateFileSizeAndSpaceUsed s2 ino)

/-- One chunk's contribution to a `read` result buffer: copy the overlap
of the chunk's byte range with `[offset, endPos)`. -/
def copyChunkInto (offset endPos : Nat) (result : List Nat) (c : ChunkRow) : List Nat :=
  let chunkStart := c.offset
  let chunkEnd := c.offset + c.data.length
  let readStart := max offset chunkStart
  let readEnd := min endPos chunkEnd
  if readStart < readEnd then
    let destStart := readStart - offset
    let len := readEnd - readStart
    result.take destStart ++ (c.data.drop (readStart - chunkStart)).take len
      ++ result.drop (destStart + len)
  else result

/-- Insertion into a list of chunk rows sorted by `offset` (for
`ORDER BY offset ASC`). -/
def insertByOffset (c : ChunkRow) : List ChunkRow → List ChunkRow
  | [] => [c]
  | d :: ds => if c.offset ≤ d.offset then c :: d :: ds else d :: insertByOffset c ds

/-- `ORDER BY offset ASC` over the rows of one inode. -/
def sortByOffset : List ChunkRow → List ChunkRow
  | [] => []
  | c :: cs => insertByOffset c (sortByOffset cs)

/-- `read(path, { offset?, length? })` (read-only).  `ERANGE` models the
`RangeError` of `new Uint8Array(end - offset)` with a negative size. -/
def readOp (s : FsState) (path : String) (offset? length? : Option Nat) :
    Except Err (List Nat) :=
  match resolvePathToInode s path with
  | .error e => .error e
  | .ok ino =>
    let offset := offset?.getD 0
    let rows := sortByOffset (s.chunks.filter (fun c => c.ino == ino))
    let fileEnd := rows.foldl (fun m c => max m (c.offset + c.data.length)) 0
    let endPos := match length? with
      | some l => offset + l
      | none => fileEnd
    if endPos < offset then .error .ERANGE
    else .ok (rows.foldl (copyChunkInto offset endPos) (List.replicate (endPos - offset) 0))

/-! ### Device accounting and the streaming writer -/

/-- `setDeviceSize(newSize)`. -/
def setDeviceSize (s : FsState) (newSize : Nat) : Res Unit :=
  if newSize < s.space_used then .err .ENOSPC s
  else .ok () { s with device_size := newSize }

/-- `writeFile` input: a finite buffer or a pull stream of byte buffers. -/
inductive WriteData where
  | buf (data : List Nat)
  | stream (parts : List (List Nat))
  deriving DecidableEq

/-- The pull loop of `writeFile` for stream input.  `deviceSize` and
`spaceUsed` were sampled once, before the file was created. -/
def writeFileStreamLoop (path : String) (deviceSize spaceUsed now : Nat) :
    List (List Nat) → Nat → Nat → FsState → Res Unit
  | [], _, _, s => .ok () s
  | v :: rest, offset, total, s =>
    if deviceSize < spaceUsed + total + v.length then .err .ENOSPC s
    else
      match write s path v (some offset) now with
      | .err e s' => .err e s'
      | .ok _ s' =>
        writeFileStreamLoop path deviceSize spaceUsed now rest (offset + v.length)
          (total + v.length) s'

/-- `writeFile(path, data)`: unlink-if-exists, sample the accounting,
create the file, then write with preflight quota checks. -/
def writeFile (s : FsState) (path : String) (data : WriteData) (now : Nat) : Res Unit :=
  match (match unlink s path with
         | .ok _ s' => .ok () s'
         | .err .ENOENT s' => .ok () s'
         | .err e s' => .err e s' : Res Unit) with
  | .err e s' => .err e s'
  | .ok _ s1 =>
    let deviceSize := s1.device_size
    let spaceUsed := s1.space_used
    match create s1 path {} now with
    | .err e s2 => .err e s2
    | .ok _ s2 =>
      match data with
      | .stream parts => writeFileStreamLoop path deviceSize spaceUsed now parts 0 0 s2
      | .buf b =>
        if deviceSize < spaceUsed + b.length then .err .ENOSPC s2
        else write s2 path b (some 0) now

/-- The store state carried by a `Res`, whether or not the call succeeded. -/
def resState {α : Type} : Res α → FsState
  | .ok _ s => s
  | .err _ s => s

/-! ### Concrete scenario states referenced by the claim theorems -/

-- Spec §8 scenario 1: mkdir("/a"); writeFile("/a/t", "Buy milk")
def sc1 : FsState := resState (mkdir (initState 8 0) "/a" {} 0)
def sc2 : FsState := resState (writeFile sc1 "/a/t" (.buf [66,117,121,32,109,105,108,107]) 0)

-- Scenario 2: write("/a/t", "\nCall Alice", {offset: 8})
def sc3 : FsState :=
  resState (write sc2 "/a/t" [10,67,97,108,108,32,65,108,105,99,101] (some 8) 0)

/-- Did the call succeed? -/
def isOk {α : Type} : Res α → Bool
  | .ok _ _ => true
  | .err _ _ => false

/-- State with a regular file `/f`. -/
def c10_s1 : FsState := resState (create (initState 8 0) "/f" {} 0)

/-- State where `create("/f/g")` succeeded *under the file* `/f`. -/
def c10_s2 : FsState := resState (create c10_s1 "/f/g" {} 0)

/-- The files row of `/f` (inode 2). -/
def c10_row : FileRow := ⟨2, "f", some 1, false, mkAttr 2 0 .File 420 1 0, none⟩

/-- The state `rename(p, p)` leaves: the entry's files row and chunks
rows deleted. -/
def selfRenameResult (s : FsState) (ino : Nat) : FsState :=
  { s with files := s.files.filter (fun r => !(r.ino == ino)),
           chunks := s.chunks.filter (fun c => !(c.ino == ino)) }

/-- A 16-byte file `/x` on a fresh instance (chunks at offsets 0 and 8). -/
def c3_s1 : FsState :=
  resState (writeFile (initState 8 0) "/x"
    (.buf [1, 2, 3, 4, 5, 6, 7, 8, 9, 10, 11, 12, 13, 14, 15, 16]) 0)

/-- `rmdir("/x")` succeeds on the regular file, orphaning its chunks. -/
def c3_s2 : FsState := resState (rmdir c3_s1 "/x")

/-- `writeFile("/f", [170])` — the fresh file reuses inode 2. -/
def c3_r : Res Unit := writeFile c3_s2 "/f" (.buf [170]) 0

/-- No chunk row is orphaned: every chunk's inode has a files row. -/
def noOrphans (s : FsState) : Prop :=
  ∀ c ∈ s.chunks, ∃ r ∈ s.files, r.ino = c.ino

/-- The chunk row the write loop produces for chunk index `k` of a write
of `data` at offset 0 on a fresh inode. -/
def rowFn (CS f : Nat) (data : List Nat) (k : Nat) : ChunkRow :=
  ⟨f, k * CS, (data.drop (k * CS)).take CS, min CS (data.length - k * CS)⟩

/-- All chunk rows of a fresh offset-0 write of `data`. -/
def freshRows (CS f : Nat) (data : List Nat) : List ChunkRow :=
  (List.range ((data.length + CS - 1) / CS)).map (rowFn CS f data)

/-- Ten-byte file `/t` (chunks of lengths 8 and 2) for the C5 witness. -/
def c5_s : FsState :=
  resState (writeFile (initState 8 0) "/t" (.buf [1, 2, 3, 4, 5, 6, 7, 8, 9, 10]) 0)

/-- Directory `/d` on a fresh instance. -/
def c6_s0 : FsState := resState (mkdir (initState 8 0) "/d" {} 0)

/-- … with a child `/d/x`, making `/d` non-empty. -/
def c6_s1 : FsState := resState (create c6_s0 "/d/x" {} 0)

/-- … and a regular file `/a`. -/
def c6_s2 : FsState := resState (create c6_s1 "/a" {} 0)

/-- The files row of the directory `/d` (inode 2). -/
def c6_rowD : FileRow := ⟨2, "d", some 1, true, mkAttr 2 0 .Directory 493 2 0, none⟩

/-- The files row of the file `/a` (inode 4). -/
def c6_rowA : FileRow := ⟨4, "a", some 1, false, mkAttr 4 0 .File 420 1 0, none⟩

/-- State after the successful `rename("/a", "/b")`. -/
def c6_s3 : FsState := resState (rename c6_s2 "/a" "/b")

/-- State with a regular file `/f` written with 3 bytes. -/
def c9_s1 : FsState := resState (writeFile (initState 8 0) "/f" (.buf [7, 8, 9]) 0)

/-- The files row of `/f` in `c9_s1`. -/
def c9_row : FileRow :=
  ⟨2, "f", some 1, false, { mkAttr 2 0 .File 420 1 0 with size := 3 }, none⟩

/-- State with `/old` (3 bytes) written on a fresh 8-byte-chunk instance. -/
def c1_s1 : FsState := resState (writeFile (initState 8 0) "/old" (.buf [1, 2, 3]) 0)

/-- State with `/new` (8 bytes) also written; `space_used = 11`. -/
def c1_s2 : FsState :=
  resState (writeFile c1_s1 "/new" (.buf [11, 12, 13, 14, 15, 16, 17, 18]) 0)

/-- Result of `rename("/old", "/new")` on that state. -/
def c1_s3 : Res Unit := rename c1_s2 "/old" "/new"

/-- Fresh instance with the device capacity lowered to 10 bytes. -/
def c2_s1 : FsState := resState (setDeviceSize (initState 8 0) 10)

/-- Result of `writeFile("/big", <11 bytes>)` on that instance. -/
def c2_r : Res Unit :=
  writeFile c2_s1 "/big" (.buf [1, 2, 3, 4, 5, 6, 7, 8, 9, 10, 11]) 0

/-- 19-byte file `/t` on a fresh 8-byte-chunk instance. -/
def c4_s1 : FsState :=
  resState (writeFile (initState 8 0) "/t"
    (.buf [66, 117, 121, 32, 109, 105, 108, 107, 10, 67, 97, 108, 108, 32, 65, 108, 105, 99, 101]) 0)

/-- Result of `truncate("/t", 12)`. -/
def c4_r : Res Unit := truncate c4_s1 "/t" 12

end Dofs

section ScratchTests
open Dofs

example : pathParts "/a/b" = ["a", "b"] := by decide
example : pathParts "" = [] := by decide
example : pathParts "/" = [] := by decide
example : joinParts ["a"] = "/a" := by decide

example : (stat sc2 "/a/t").map (fun st => st.size) = .ok 8 := by decide
example : sc2.chunks = [⟨3, 0, [66,117,121,32,109,105,108,107], 8⟩] := by decide
example : sc2.space_used = 8 := by decide
example : readOp sc2 "/a/t" none none = .ok [66,117,121,32,109,105,108,107] := by decide

example : (stat sc3 "/a/t").map (fun st => st.size) = .ok 19 := by decide
example : sc3.chunks = [⟨3, 0, [66,117,121,32,109,105,108,107], 8⟩,
    ⟨3, 8, [10,67,97,108,108,32,65,108], 8⟩, ⟨3, 16, [105,99,101], 3⟩] := by decide
example : readOp sc3 "/a/t" none none =
    .ok [66,117,121,32,109,105,108,107,10,67,97,108,108,32,65,108,105,99,101] := by decide

-- Scenario 3: read("/a/t", {offset: 4, length: 4}) == "milk"
example : readOp sc3 "/a/t" (some 4) (some 4) = .ok [109,105,108,107] := by decide

end ScratchTests

namespace Dofs

/-! ## Generic helper lemmas -/

lemma find?_eq_some_of_unique {α : Type} {p : α → Bool} {l : List α} {x : α}
    (hmem : x ∈ l) (hp : p x = true) (huniq : ∀ y ∈ l, p y = true → y = x) :
    l.find? p = some x := by
  induction l with
  | nil => cases hmem
  | cons a t ih =>
    by_cases ha : p a = true
    · have hax : a = x := huniq a (List.mem_cons_self a t) ha
      rw [List.find?_cons_of_pos _ ha, hax]
    · rcases List.mem_cons.mp hmem with h | h
      · exact absurd (h ▸ hp) ha
      · rw [List.find?_cons_of_neg _ (by simpa using ha)]
        exact ih h (fun y hy => huniq y (List.mem_cons_of_mem _ hy))

/-! ## Path split/join lemmas

The segments produced by `jsSplitSlash` contain no `'/'`, and splitting a
joined list of nonempty slash-free segments recovers the list.  These
justify reasoning about `resolvePathToInode` of the parent-path string
that `create`/`mkdir`/`symlink`/`rename` rebuild via `joinParts`. -/

lemma splitSlashAux_no_slash (cs : List Char) :
    ∀ acc, (∀ c ∈ acc, c ≠ '/') →
      ∀ x ∈ splitSlashAux cs acc, ∀ c ∈ x.data, c ≠ '/' := by
  induction cs with
  | nil =>
    intro acc hacc x hx c hc
    simp only [splitSlashAux, List.mem_singleton] at hx
    subst hx
    exact hacc c (by simpa using hc)
  | cons a t ih =>
    intro acc hacc x hx c hc
    by_cases ha : a = '/'
    · rw [splitSlashAux, if_pos ha] at hx
      rcases List.mem_cons.mp hx with h | h
      · subst h; exact hacc c (by simpa using hc)
      · exact ih [] (by simp) x h c hc
    · rw [splitSlashAux, if_neg ha] at hx
      refine ih (a :: acc) ?_ x hx c hc
      intro d hd
      rcases List.mem_cons.mp hd with h | h
      · exact h ▸ ha
      · exact hacc d h

lemma pathParts_props (p : String) :
    ∀ x ∈ pathParts p, x ≠ "" ∧ ∀ c ∈ x.data, c ≠ '/' := by
  intro x hx
  have hmem := List.mem_of_mem_filter hx
  have hne : x ≠ "" := by
    have := List.of_mem_filter hx
    simpa using this
  exact ⟨hne, splitSlashAux_no_slash p.data [] (by simp) x hmem⟩

lemma splitSlashAux_no_slash_eq (cs : List Char) (hcs : ∀ c ∈ cs, c ≠ '/') :
    ∀ acc, splitSlashAux cs acc = [String.mk (acc.reverse ++ cs)] := by
  induction cs with
  | nil => intro acc; simp [splitSlashAux]
  | cons a t ih =>
    intro acc
    have ha : a ≠ '/' := hcs a (List.mem_cons_self a t)
    rw [splitSlashAux, if_neg ha, ih (fun c hc => hcs c (List.mem_cons_of_mem _ hc))]
    simp

lemma splitSlashAux_append_slash (cs₁ : List Char) (hcs : ∀ c ∈ cs₁, c ≠ '/') (cs₂ : List Char) :
    ∀ acc, splitSlashAux (cs₁ ++ '/' :: cs₂) acc =
      String.mk (acc.reverse ++ cs₁) :: splitSlashAux cs₂ [] := by
  induction cs₁ with
  | nil => intro acc; simp [splitSlashAux]
  | cons a t ih =>
    intro acc
    have ha : a ≠ '/' := hcs a (List.mem_cons_self a t)
    rw [List.cons_append, splitSlashAux, if_neg ha,
      ih (fun c hc => hcs c (List.mem_cons_of_mem _ hc))]
    simp

lemma pathParts_joinParts (l : List String)
    (h : ∀ x ∈ l, x ≠ "" ∧ ∀ c ∈ x.data, c ≠ '/') :
    pathParts (joinParts l) = l := by
  have key : ∀ (l : List String), (∀ x ∈ l, x ≠ "" ∧ ∀ c ∈ x.data, c ≠ '/') →
      (splitSlashAux (jsJoin l).data []).filter (fun x => x ≠ "") = l := by
    intro l
    induction l with
    | nil => intro _; simp [jsJoin, splitSlashAux]
    | cons x t ih =>
      intro hl
      have hx := hl x (List.mem_cons_self x t)
      cases t with
      | nil =>
        have : splitSlashAux (jsJoin [x]).data [] = [String.mk x.data] := by
          rw [jsJoin]
          simpa using splitSlashAux_no_slash_eq x.data hx.2 []
        rw [this]
        simp [hx.1]
      | cons y u =>
        have hju : (jsJoin (x :: y :: u)).data = x.data ++ '/' :: (jsJoin (y :: u)).data := by
          show (x ++ "/" ++ jsJoin (y :: u)).data = _
          simp [String.data_append]
        rw [hju, splitSlashAux_append_slash x.data hx.2 _ []]
        simp only [List.reverse_nil, List.nil_append]
        have hxs : String.mk x.data = x := by cases x; rfl
        rw [hxs, List.filter_cons, if_pos (decide_eq_true hx.1),
          ih (fun z hz => hl z (List.mem_cons_of_mem _ hz))]
  have : pathParts (joinParts l) =
      (splitSlashAux (jsJoin l).data []).filter (fun x => x ≠ "") := by
    rw [pathParts, joinParts, jsSplitSlash, String.data_append]
    show (splitSlashAux ('/' :: (jsJoin l).data) []).filter _ = _
    rw [splitSlashAux, if_pos rfl]
    simp [List.filter_cons]
  rw [this, key l h]

/-! ## Resolution lemmas -/

/-- `resolvePathToInode` always agrees with the segment walk (the early
return for `/` and `""` matches the walk over zero segments). -/
lemma resolvePathToInode_eq (s : FsState) (p : String) :
    resolvePathToInode s p = resolveParts s (pathParts p) 1 := by
  rw [resolvePathToInode]
  split
  · rename_i h
    rcases h with rfl | rfl
    · have h0 : pathParts "/" = [] := rfl
      rw [h0]; rfl
    · have h0 : pathParts "" = [] := rfl
      rw [h0]; rfl
  · rfl

lemma resolveParts_files_eq {s t : FsState} (h : s.files = t.files) :
    ∀ (l : List String) (par : Nat), resolveParts s l par = resolveParts t l par := by
  intro l
  induction l with
  | nil => intro par; rfl
  | cons a u ih =>
    intro par
    rw [resolveParts, resolveParts, lookupChild, lookupChild, h]
    cases (t.files.find? fun r => r.parent == some par && r.name == a) with
    | none => rfl
    | some r => exact ih r.ino

lemma resolveParts_append (s : FsState) (l₁ l₂ : List String) (par : Nat) :
    resolveParts s (l₁ ++ l₂) par =
      match resolveParts s l₁ par with
      | .ok m => resolveParts s l₂ m
      | .error e => .error e := by
  induction l₁ generalizing par with
  | nil => rfl
  | cons a u ih =>
    rw [List.cons_append, resolveParts, resolveParts]
    cases lookupChild s.files par a with
    | none => rfl
    | some r => exact ih r.ino

/-- Appending a row preserves any successful walk (first-match lookups do
not change when rows are appended at the end). -/
lemma resolveParts_append_row (s : FsState) (r : FileRow) :
    ∀ (l : List String) (par x : Nat), resolveParts s l par = .ok x →
      resolveParts { s with files := s.files ++ [r] } l par = .ok x := by
  intro l
  induction l with
  | nil =>
    intro par x h
    simpa [resolveParts] using h
  | cons a u ih =>
    intro par x h
    rw [resolveParts] at h ⊢
    rw [lookupChild] at *
    rcases hf : s.files.find? fun q => q.parent == some par && q.name == a with _ | q
    · rw [hf] at h; cases h
    · rw [hf] at h
      have : ({ s with files := s.files ++ [r] } : FsState).files.find?
          (fun q => q.parent == some par && q.name == a) = some q := by
        show (s.files ++ [r]).find? _ = some q
        rw [List.find?_append, hf]; rfl
      rw [this]
      exact ih q.ino x h

/-- A map that preserves `ino`, `parent` and `name` preserves resolution. -/
lemma resolveParts_map (s : FsState) (g : FileRow → FileRow)
    (hg : ∀ r, (g r).ino = r.ino ∧ (g r).parent = r.parent ∧ (g r).name = r.name) :
    ∀ (l : List String) (par : Nat),
      resolveParts { s with files := s.files.map g } l par = resolveParts s l par := by
  intro l
  induction l with
  | nil => intro par; rfl
  | cons a u ih =>
    intro par
    rw [resolveParts, resolveParts]
    have hfind : ({ s with files := s.files.map g } : FsState).files.find?
        (fun q => q.parent == some par && q.name == a) =
        (s.files.find? fun q => q.parent == some par && q.name == a).map g := by
      show (s.files.map g).find? _ = _
      rw [List.find?_map]
      have hpred : ((fun q => q.parent == some par && q.name == a) ∘ g) =
          (fun (q : FileRow) => q.parent == some par && q.name == a) := by
        funext q
        simp [Function.comp, (hg q).2.1, (hg q).2.2]
      rw [hpred]
    rw [lookupChild, lookupChild, hfind]
    cases hf : s.files.find? fun q => q.parent == some par && q.name == a with
    | none => rfl
    | some q =>
      simp only [Option.map_some]
      show resolveParts _ u (g q).ino = resolveParts s u q.ino
      rw [(hg q).1]
      exact ih q.ino

/-! ## `allocInode` freshness -/

lemma init_le_foldl_max (l : List Nat) : ∀ b, b ≤ l.foldl Nat.max b := by
  induction l with
  | nil => intro b; exact Nat.le_refl b
  | cons x t ih => intro b; exact le_trans (Nat.le_max_left b x) (ih (Nat.max b x))

lemma mem_le_foldl_max {a : Nat} {l : List Nat} (h : a ∈ l) : ∀ b, a ≤ l.foldl Nat.max b := by
  induction l with
  | nil => cases h
  | cons x t ih =>
    intro b
    rcases List.mem_cons.mp h with h1 | h1
    · subst h1
      exact le_trans (Nat.le_max_right b a) (init_le_foldl_max t _)
    · exact ih h1 _

/-- Every existing row's inode is strictly below the next allocated one. -/
lemma lt_allocInode {s : FsState} {r : FileRow} (h : r ∈ s.files) : r.ino < allocInode s := by
  rw [allocInode]
  rcases hf : s.files with _ | ⟨a, t⟩
  · rw [hf] at h; cases h
  · have hm : r.ino ∈ s.files.map (fun q => q.ino) := List.mem_map_of_mem _ h
    have hle := mem_le_foldl_max hm 0
    rw [hf] at hle
    change r.ino < ((a :: t).map (fun q => q.ino)).foldl Nat.max 0 + 1
    omega

/-- Resolving the parent-path string rebuilt by
`'/' + parts.slice(0,-1).join('/')` is the walk over the leading segments. -/
lemma resolve_parentPath (s : FsState) (p : String) :
    resolvePathToInode s (joinParts (pathParts p).dropLast) =
      resolveParts s (pathParts p).dropLast 1 := by
  rw [resolvePathToInode_eq,
    pathParts_joinParts _ (fun x hx => pathParts_props p x ((List.dropLast_sublist _).subset hx))]

lemma leafName_eq_getLast (l : List String) (h : l ≠ []) : leafName l = l.getLast h := by
  rw [leafName, List.getLast?_eq_getLast l h, Option.getD_some]

lemma parts_eq_dropLast_append (l : List String) (h : l ≠ []) :
    l = l.dropLast ++ [leafName l] := by
  rw [leafName_eq_getLast l h, List.dropLast_append_getLast h]

/-! ## C8 — empty-path behavior of the resolver and entry creators -/

/-- C8: resolution of `""` or `"/"` yields inode 1 in any state; a path
with no non-empty segments makes `create`/`mkdir`/`symlink` fail `EEXIST`
(state unchanged) and `rename` fail `ENOENT` (either side, state
unchanged). -/
theorem C8_empty_path_rules :
    (∀ s : FsState, resolvePathToInode s "" = .ok 1 ∧ resolvePathToInode s "/" = .ok 1) ∧
    (∀ (s : FsState) (p : String) (co : CreateOptions) (mo : MkdirOptions) (t : String)
        (now : Nat), pathParts p = [] →
      create s p co now = .err .EEXIST s ∧ mkdir s p mo now = .err .EEXIST s ∧
        symlink s t p now = .err .EEXIST s) ∧
    (∀ (s : FsState) (p q : String), pathParts p = [] →
      rename s p q = .err .ENOENT s ∧ rename s q p = .err .ENOENT s) := by
  refine ⟨fun s => ⟨by rw [resolvePathToInode]; simp, by rw [resolvePathToInode]; simp⟩,
    ?_, ?_⟩
  · intro s p co mo t now hp
    exact ⟨by simp [create, hp], by simp [mkdir, hp], by simp [symlink, hp]⟩
  · intro s p q hp
    exact ⟨by simp [rename, hp], by simp [rename, hp]⟩

/-- C8 witness: the rules applied at inputs `""` and `"/"` on a concrete
state. -/
theorem C8_empty_path_rules_witness :
    resolvePathToInode (initState 8 0) "" = .ok 1 ∧
      create (initState 8 0) "/" {} 0 = .err .EEXIST (initState 8 0) ∧
      rename (initState 8 0) "" "/a" = .err .ENOENT (initState 8 0) := by
  refine ⟨(C8_empty_path_rules.1 (initState 8 0)).1, ?_, ?_⟩
  · exact (C8_empty_path_rules.2.1 (initState 8 0) "/" {} {} "" 0 (by decide)).1
  · exact (C8_empty_path_rules.2.2 (initState 8 0) "" "/a" (by decide)).1

/-! ## C10 — `listDir` on a non-directory

`listDir` never checks `is_dir`: it resolves the path and lists the rows
whose `parent` is the resolved inode, prefixed by `.` and `..`.  For a
file or symlink with no such rows that is exactly `[".", ".."]` — but the
engine also allows `create` to insert entries *under a file* (path
resolution never checks `is_dir` either), and then `listDir` on the file
lists them too, refuting the claim's "no other names". -/

/-- C10 (amended): if `p` resolves to an inode whose row is not a
directory and no files row has that inode as parent, `listDir(p)`
succeeds with exactly `[".", ".."]`. -/
theorem C10_listDir_nondirectory (s : FsState) (p : String) (i : Nat) (row : FileRow)
    (hres : resolvePathToInode s p = .ok i)
    (hrow : lookupIno s.files i = some row)
    (hnd : row.is_dir = false)
    (hnochild : s.files.filter (fun r => r.parent == some i) = []) :
    listDir s p = .ok [".", ".."] := by
  rw [listDir, hres]
  show Except.ok ("." :: ".." ::
    (s.files.filter (fun r => r.parent == some i)).map (fun r => r.name)) = _
  rw [hnochild]
  rfl

/-- C10 counterexample: `/f` is a regular file, yet `listDir("/f")`
returns `[".", "..", "g"]` — not exactly the two synthetic entries —
because nothing stops `create` from inserting `g` under the file. -/
theorem C10_listDir_file_with_child :
    (stat c10_s2 "/f").map (fun st => st.isFile) = .ok true ∧
      listDir c10_s2 "/f" = .ok [".", "..", "g"] ∧
      (("." : String) :: ".." :: ["g"] ≠ [".", ".."]) := by decide

/-- C10 witness: the amended theorem applied to the childless file `/f`. -/
theorem C10_listDir_nondirectory_witness : listDir c10_s1 "/f" = .ok [".", ".."] :=
  C10_listDir_nondirectory c10_s1 "/f" 2 c10_row (by decide) (by decide) (by decide) (by decide)

/-! ## C9 — `rename(p, p)` deletes the entry

When source and destination are the same path the source row *is* the
destination row: `rename` deletes it (files and chunks) and the final
`UPDATE` matches nothing.  This holds for every non-root path whose entry
is a file, a symlink or an empty directory — but not for the root path
`/` itself, for which `rename` throws `ENOENT` without deleting
anything (see the counterexample). -/

/-- C9 counterexample: the root path `/` names an (empty) directory that
exists, yet `rename("/", "/")` fails `ENOENT` and deletes nothing — `/`
still resolves. -/
theorem C9_self_rename_root :
    rename (initState 8 0) "/" "/" = .err .ENOENT (initState 8 0) ∧
      resolvePathToInode (initState 8 0) "/" = .ok 1 := by decide

/-- Rows surviving an ino-filter are untouched by the post-rename
re-pointing map. -/
lemma map_if_ino_filter (l : List FileRow) (i : Nat) (f : FileRow → FileRow) :
    (l.filter (fun r => !(r.ino == i))).map (fun r => if r.ino == i then f r else r) =
      l.filter (fun r => !(r.ino == i)) := by
  have h : ∀ r ∈ l.filter (fun r => !(r.ino == i)),
      (if r.ino == i then f r else r) = (fun r => r) r := by
    intro r hr
    have hni := List.of_mem_filter hr
    simp only [Bool.not_eq_eq_eq_not, Bool.not_true, beq_eq_false_iff_ne, ne_eq] at hni
    simp [hni]
  rw [List.map_congr_left h, List.map_id']

/-- C9 (amended): for a non-root path `p` whose entry `row` is a regular
file, a symlink or an empty directory, where `row` is the only files row
at its `(parent, name)` key and the deletion does not disturb resolution
of `p`'s parent path, `rename(p, p)` succeeds, the entry's files row and
all its chunk rows are gone, and resolving `p` afterwards fails
`ENOENT`. -/
theorem C9_self_rename_deletes (s : FsState) (p : String) (par : Nat) (row : FileRow)
    (hne : pathParts p ≠ [])
    (hpar : resolveParts s (pathParts p).dropLast 1 = .ok par)
    (hfind : lookupChild s.files par (leafName (pathParts p)) = some row)
    (hok : row.is_dir = false ∨ s.files.filter (fun r => r.parent == some row.ino) = [])
    (honly : ∀ r ∈ s.files, r.parent = some par → r.name = leafName (pathParts p) →
      r.ino = row.ino)
    (hstab : resolveParts (selfRenameResult s row.ino) (pathParts p).dropLast 1 = .ok par) :
    rename s p p = .ok () (selfRenameResult s row.ino) ∧
      resolvePathToInode (selfRenameResult s row.ino) p = .error .ENOENT ∧
      (∀ r ∈ (selfRenameResult s row.ino).files, r.ino ≠ row.ino) ∧
      (∀ c ∈ (selfRenameResult s row.ino).chunks, c.ino ≠ row.ino) := by
  have hempty : ¬(pathParts p = [] ∨ pathParts p = []) := by simp [hne]
  have hcond : ¬(row.is_dir = true ∧
      0 < (s.files.filter (fun r => r.parent == some row.ino)).length) := by
    rcases hok with hnd | hnoch
    · intro hc; rw [hnd] at hc; exact Bool.false_ne_true hc.1
    · intro hc; rw [hnoch] at hc; exact Nat.lt_irrefl 0 hc.2
  refine ⟨?_, ?_, ?_, ?_⟩
  · rw [rename]
    simp only [hempty, if_false, resolve_parentPath, hpar, hfind]
    rw [if_neg hcond]
    show Res.ok () _ = _
    rw [selfRenameResult, map_if_ino_filter]
  · rw [resolvePathToInode_eq]
    conv_lhs => rw [parts_eq_dropLast_append (pathParts p) hne]
    rw [resolveParts_append, hstab]
    show resolveParts (selfRenameResult s row.ino) [leafName (pathParts p)] par =
      .error .ENOENT
    rw [resolveParts]
    have hlc : lookupChild (selfRenameResult s row.ino).files par (leafName (pathParts p)) =
        none := by
      rw [lookupChild]
      apply List.find?_eq_none.mpr
      intro r hr hpred
      have hmem := List.mem_of_mem_filter hr
      have hni := List.of_mem_filter hr
      simp only [Bool.not_eq_eq_eq_not, Bool.not_true, beq_eq_false_iff_ne, ne_eq] at hni
      simp only [Bool.and_eq_true, beq_iff_eq] at hpred
      exact hni (honly r hmem hpred.1 hpred.2)
    rw [hlc]
  · intro r hr
    have hni := List.of_mem_filter hr
    simp only [Bool.not_eq_eq_eq_not, Bool.not_true, beq_eq_false_iff_ne, ne_eq] at hni
    exact hni
  · intro c hc
    have hni := List.of_mem_filter hc
    simp only [Bool.not_eq_eq_eq_not, Bool.not_true, beq_eq_false_iff_ne, ne_eq] at hni
    exact hni

/-! ## C6 helper lemmas -/

lemma resolveParts_single (s : FsState) (a : String) (par : Nat) :
    resolveParts s [a] par =
      match lookupChild s.files par a with
      | some r => .ok r.ino
      | none => .error .ENOENT := by
  rw [resolveParts]
  cases lookupChild s.files par a <;> rfl

/-- `stat` through the `(parent, leaf)` decomposition of a path. -/
lemma stat_path (s : FsState) (p : String) (hne : pathParts p ≠ []) (par : Nat)
    (hpar : resolveParts s (pathParts p).dropLast 1 = .ok par) :
    stat s p =
      match lookupChild s.files par (leafName (pathParts p)) with
      | some row =>
        match lookupIno s.files row.ino with
        | some r => .ok (mkStat r)
        | none => .error .ENOENT
      | none => .error .ENOENT := by
  rw [stat, resolvePathToInode_eq]
  conv_lhs => rw [parts_eq_dropLast_append _ hne]
  rw [resolveParts_append, hpar]
  show (match resolveParts s [leafName (pathParts p)] par with
    | Except.error e => (Except.error e : Except Err Stat)
    | Except.ok ino =>
      match lookupIno s.files ino with
      | none => Except.error Err.ENOENT
      | some row => Except.ok (mkStat row)) = _
  rw [resolveParts_single]
  cases lookupChild s.files par (leafName (pathParts p)) with
  | none => rfl
  | some row =>
    show (match lookupIno s.files row.ino with
      | none => Except.error Err.ENOENT
      | some r => Except.ok (mkStat r)) =
      (match lookupIno s.files row.ino with
      | some r => Except.ok (mkStat r)
      | none => Except.error Err.ENOENT)
    cases lookupIno s.files row.ino <;> rfl

/-- Lookup facts about the post-rename row list `base.map upd`: the old
`(parent, name)` key is vacated, the new key holds the re-pointed source
row, and the source inode still resolves to it. -/
lemma repoint_lookups (s : FsState) (base : List FileRow) (rowA : FileRow) (po pn : Nat)
    (leafA leafB : String)
    (hsub : ∀ r ∈ base, r ∈ s.files)
    (hmemA : rowA ∈ base)
    (hinouniq : ∀ r1 ∈ s.files, ∀ r2 ∈ s.files, r1.ino = r2.ino → r1 = r2)
    (hkeyuniq : ∀ r1 ∈ s.files, ∀ r2 ∈ s.files,
      r1.parent = r2.parent → r1.name = r2.name → r1 = r2)
    (hpA : rowA.parent = some po) (hnA : rowA.name = leafA)
    (hdiff : ¬(po = pn ∧ leafA = leafB))
    (hnoB : ∀ r ∈ base, ¬(r.parent = some pn ∧ r.name = leafB)) :
    ((base.map (fun r => if r.ino == rowA.ino then
        { r with parent := some pn, name := leafB } else r)).find?
        (fun q => q.parent == some po && q.name == leafA) = none) ∧
    ((base.map (fun r => if r.ino == rowA.ino then
        { r with parent := some pn, name := leafB } else r)).find?
        (fun q => q.parent == some pn && q.name == leafB) =
      some { rowA with parent := some pn, name := leafB }) ∧
    ((base.map (fun r => if r.ino == rowA.ino then
        { r with parent := some pn, name := leafB } else r)).find?
        (fun q => q.ino == rowA.ino) =
      some { rowA with parent := some pn, name := leafB }) := by
  set upd := fun (r : FileRow) => if r.ino == rowA.ino then
    { r with parent := some pn, name := leafB } else r with hupd
  have hupdA : upd rowA = { rowA with parent := some pn, name := leafB } := by
    simp [hupd]
  have hcase : ∀ r ∈ base, (r.ino = rowA.ino ∧ upd r = upd rowA) ∨
      (r.ino ≠ rowA.ino ∧ upd r = r) := by
    intro r hr
    by_cases h : r.ino = rowA.ino
    · exact Or.inl ⟨h, by
        have : r = rowA := hinouniq r (hsub r hr) rowA (hsub rowA hmemA) h
        rw [this]⟩
    · exact Or.inr ⟨h, by simp [hupd, h]⟩
  refine ⟨?_, ?_, ?_⟩
  · apply List.find?_eq_none.mpr
    intro y hy hpred
    rcases List.mem_map.mp hy with ⟨r, hr, rfl⟩
    simp only [Bool.and_eq_true, beq_iff_eq] at hpred
    rcases hcase r hr with ⟨hio, heq⟩ | ⟨hio, heq⟩
    · rw [heq, hupdA] at hpred
      exact hdiff ⟨(Option.some.inj hpred.1).symm, hpred.2.symm⟩
    · rw [heq] at hpred
      have : r = rowA := hkeyuniq r (hsub r hr) rowA (hsub rowA hmemA)
        (hpred.1.trans hpA.symm) (hpred.2.trans hnA.symm)
      exact hio (this ▸ rfl)
  · apply find?_eq_some_of_unique
    · rw [← hupdA]; exact List.mem_map_of_mem upd hmemA
    · simp
    · intro y hy hpred
      rcases List.mem_map.mp hy with ⟨r, hr, rfl⟩
      simp only [Bool.and_eq_true, beq_iff_eq] at hpred
      rcases hcase r hr with ⟨_, heq⟩ | ⟨_, heq⟩
      · rw [heq, hupdA]
      · rw [heq] at hpred ⊢
        exact absurd ⟨hpred.1, hpred.2⟩ (hnoB r hr)
  · apply find?_eq_some_of_unique
    · rw [← hupdA]; exact List.mem_map_of_mem upd hmemA
    · simp
    · intro y hy hpred
      rcases List.mem_map.mp hy with ⟨r, hr, rfl⟩
      simp only [beq_iff_eq] at hpred
      have hio : r.ino = rowA.ino := by
        rcases hcase r hr with ⟨hio, _⟩ | ⟨_, heq⟩
        · exact hio
        · rw [heq] at hpred; exact hpred
      rcases hcase r hr with ⟨_, heq⟩ | ⟨hne', _⟩
      · rw [heq, hupdA]
      · exact absurd hio hne'

/-- Destination half of the rename contract: renaming onto a non-empty
directory fails `ENOTEMPTY` with the store untouched. -/
lemma rename_dest_nonempty_dir (s : FsState) (a b : String) (po pn : Nat) (rowB : FileRow)
    (hnea : pathParts a ≠ []) (hneb : pathParts b ≠ [])
    (hpo : resolveParts s (pathParts a).dropLast 1 = .ok po)
    (hpn : resolveParts s (pathParts b).dropLast 1 = .ok pn)
    (hsrc : (lookupChild s.files po (leafName (pathParts a))).isSome = true)
    (hdst : lookupChild s.files pn (leafName (pathParts b)) = some rowB)
    (hdir : rowB.is_dir = true)
    (hchild : 0 < (s.files.filter (fun r => r.parent == some rowB.ino)).length) :
    rename s a b = .err .ENOTEMPTY s := by
  rcases hA : lookupChild s.files po (leafName (pathParts a)) with _ | rowA
  · rw [hA] at hsrc; cases hsrc
  simp [rename, hnea, hneb, resolve_parentPath, hpo, hpn, hA, hdst, hdir, hchild]

/-- Success half of the rename contract: with distinct source and
destination keys and undisturbed parent resolution, the source path stops
resolving and the destination path carries the exact pre-rename `stat`. -/
lemma rename_success_stat (s s' : FsState) (a b : String) (po pn : Nat) (rowA : FileRow)
    (hinouniq : ∀ r1 ∈ s.files, ∀ r2 ∈ s.files, r1.ino = r2.ino → r1 = r2)
    (hkeyuniq : ∀ r1 ∈ s.files, ∀ r2 ∈ s.files,
      r1.parent = r2.parent → r1.name = r2.name → r1 = r2)
    (hnea : pathParts a ≠ []) (hneb : pathParts b ≠ [])
    (hpo : resolveParts s (pathParts a).dropLast 1 = .ok po)
    (hpn : resolveParts s (pathParts b).dropLast 1 = .ok pn)
    (hsrc : lookupChild s.files po (leafName (pathParts a)) = some rowA)
    (hdiff : ¬(po = pn ∧ leafName (pathParts a) = leafName (pathParts b)))
    (hr : rename s a b = .ok () s')
    (hstabA : resolveParts s' (pathParts a).dropLast 1 = .ok po)
    (hstabB : resolveParts s' (pathParts b).dropLast 1 = .ok pn) :
    stat s' a = .error .ENOENT ∧ stat s' b = stat s a := by
  have hAmem : rowA ∈ s.files := List.mem_of_find?_eq_some hsrc
  have hAflds : rowA.parent = some po ∧ rowA.name = leafName (pathParts a) := by
    have := List.find?_some hsrc
    simpa using this
  have key : ∀ (base : List FileRow) (s'' : FsState),
      (∀ r ∈ base, r ∈ s.files) → rowA ∈ base →
      (∀ r ∈ base, ¬(r.parent = some pn ∧ r.name = leafName (pathParts b))) →
      s''.files = base.map (fun r => if r.ino == rowA.ino then
        { r with parent := some pn, name := leafName (pathParts b) } else r) →
      resolveParts s'' (pathParts a).dropLast 1 = .ok po →
      resolveParts s'' (pathParts b).dropLast 1 = .ok pn →
      stat s'' a = .error .ENOENT ∧ stat s'' b = stat s a := by
    intro base s'' hsub hmemA hnoB hfiles hsa hsb
    obtain ⟨k1, k2, k3⟩ := repoint_lookups s base rowA po pn (leafName (pathParts a))
      (leafName (pathParts b)) hsub hmemA hinouniq hkeyuniq hAflds.1 hAflds.2 hdiff hnoB
    constructor
    · rw [stat_path s'' a hnea po hsa]
      have hl : lookupChild s''.files po (leafName (pathParts a)) = none := by
        rw [lookupChild, hfiles]; exact k1
      rw [hl]
    · rw [stat_path s'' b hneb pn hsb, stat_path s a hnea po hpo]
      have h1 : lookupChild s''.files pn (leafName (pathParts b)) =
          some { rowA with parent := some pn, name := leafName (pathParts b) } := by
        rw [lookupChild, hfiles]; exact k2
      have h2 : lookupIno s''.files rowA.ino =
          some { rowA with parent := some pn, name := leafName (pathParts b) } := by
        rw [lookupIno, hfiles]; exact k3
      have h3 : lookupIno s.files rowA.ino = some rowA :=
        find?_eq_some_of_unique hAmem (by simp)
          (fun y hy hp => hinouniq y hy rowA hAmem (by simpa using hp))
      rw [h1, hsrc]
      simp only [h2, h3]
      rfl
  rw [rename] at hr
  simp only [hnea, hneb, or_self, if_false, resolve_parentPath, hpo, hpn, hsrc,
    false_or] at hr
  rcases hB : lookupChild s.files pn (leafName (pathParts b)) with _ | rowB <;>
    rw [hB] at hr
  · -- no destination entry: nothing deleted
    have hBnone : ∀ r ∈ s.files, ¬(r.parent = some pn ∧ r.name = leafName (pathParts b)) := by
      intro r hrm hk
      have := List.find?_eq_none.mp hB r hrm
      simp [hk.1, hk.2] at this
    have hs' : ({ s with files := s.files.map (fun r => if r.ino == rowA.ino then
        { r with parent := some pn, name := leafName (pathParts b) } else r) } : FsState)
        = s' := by
      simpa using hr
    subst hs'
    exact key s.files _ (fun r h => h) hAmem hBnone rfl hstabA hstabB
  · -- destination entry exists: it is deleted first
    have hBmem : rowB ∈ s.files := List.mem_of_find?_eq_some hB
    have hBflds : rowB.parent = some pn ∧ rowB.name = leafName (pathParts b) := by
      have := List.find?_some hB
      simpa using this
    have hABino : rowA.ino ≠ rowB.ino := by
      intro h
      have : rowA = rowB := hinouniq rowA hAmem rowB hBmem h
      apply hdiff
      constructor
      · have := hAflds.1.symm.trans (this ▸ hBflds.1)
        exact Option.some.inj this
      · exact hAflds.2.symm.trans (this ▸ hBflds.2)
    split at hr
    · simp at hr
    · rename_i stepv u s'v heq
      change (if rowB.is_dir = true ∧
          0 < (s.files.filter (fun r => r.parent == some rowB.ino)).length then
          Res.err Err.ENOTEMPTY s
        else Res.ok () { s with
          files := s.files.filter (fun r => !(r.ino == rowB.ino)),
          chunks := s.chunks.filter (fun c => !(c.ino == rowB.ino)) }) = Res.ok u s'v at heq
      split at heq
      · simp at heq
      · injection heq with hu hs1
        subst hs1
        injection hr with _ hs2
        subst hs2
        refine key (s.files.filter (fun r => !(r.ino == rowB.ino))) _
          (fun r h => List.mem_of_mem_filter h) ?_ ?_ rfl hstabA hstabB
        · apply List.mem_filter.mpr
          exact ⟨hAmem, by simpa using hABino⟩
        · intro r hrm hk
          have hrmem := List.mem_of_mem_filter hrm
          have hrne := List.of_mem_filter hrm
          simp only [Bool.not_eq_eq_eq_not, Bool.not_true, beq_eq_false_iff_ne, ne_eq] at hrne
          have : r = rowB := hkeyuniq r hrmem rowB hBmem (hk.1.trans hBflds.1.symm)
            (hk.2.trans hBflds.2.symm)
          exact hrne (this ▸ rfl)

/-! ## Write-loop lemmas (for C5 and C3) -/

/-- The row just upserted is present (with its key and `length`). -/
lemma upsertChunk_has (chunks : List ChunkRow) (row : ChunkRow) :
    ∃ c ∈ upsertChunk chunks row, c.ino = row.ino ∧ c.offset = row.offset ∧
      c.length = row.length := by
  rw [upsertChunk]
  split
  · rename_i hany
    rcases List.any_eq_true.mp hany with ⟨c, hc, hkey⟩
    simp only [Bool.and_eq_true, beq_iff_eq] at hkey
    refine ⟨{ c with data := row.data, length := row.length }, ?_, hkey.1, hkey.2, rfl⟩
    apply List.mem_map.mpr
    exact ⟨c, hc, by simp [hkey.1, hkey.2]⟩
  · exact ⟨row, List.mem_append_right _ (List.mem_singleton.mpr rfl), rfl, rfl, rfl⟩

/-- Rows at a different `(ino, offset)` key survive an upsert untouched. -/
lemma mem_upsertChunk_of_ne (chunks : List ChunkRow) (row c : ChunkRow)
    (hc : c ∈ chunks) (hne : ¬(c.ino = row.ino ∧ c.offset = row.offset)) :
    c ∈ upsertChunk chunks row := by
  rw [upsertChunk]
  split
  · apply List.mem_map.mpr
    refine ⟨c, hc, ?_⟩
    have : ¬(c.ino == row.ino && c.offset == row.offset) = true := by
      simp only [Bool.and_eq_true, beq_iff_eq]
      exact hne
    simp [this]
  · exact List.mem_append_left _ hc

/-- With `chunkSize = 0` the write loop never succeeds on a non-empty
buffer (it models the JavaScript infinite loop / `RangeError`). -/
lemma writeChunksLoop_zero_cs (ino offset : Nat) (buf : List Nat) :
    ∀ (fuel written : Nat) (chunks : List ChunkRow), written < buf.length →
      (writeChunksLoop 0 ino offset buf fuel written chunks).1 ≠ .ok () := by
  intro fuel
  induction fuel with
  | zero =>
    intro written chunks hlt
    rw [writeChunksLoop, if_pos hlt]
    simp
  | succ fuel ih =>
    intro written chunks hlt
    rw [writeChunksLoop, if_pos hlt]
    have hw : min (0 - (offset + written) % 0) (buf.length - written) = 0 := by
      simp [Nat.mod_zero]
    simp only [hw]
    rcases hsb : setBytes (loadChunkL chunks ino ((offset + written) / 0 * 0) 0)
        ((buf.drop written).take 0) ((offset + written) % 0) with _ | newData
    · simp
    · simpa using ih written _ hlt

/-- Frame property of the write loop: a chunk row lying strictly before
the current write position (or present when the loop is already past the
end) is never touched again. -/
lemma writeChunksLoop_frame (CS ino offset : Nat) (hCS : 0 < CS) (buf : List Nat) :
    ∀ (fuel written : Nat) (chunks chunks' : List ChunkRow) (c : ChunkRow),
      writeChunksLoop CS ino offset buf fuel written chunks = (.ok (), chunks') →
      c ∈ chunks → (c.offset + CS ≤ offset + written ∨ buf.length ≤ written) →
      c ∈ chunks' := by
  intro fuel
  induction fuel with
  | zero =>
    intro written chunks chunks' c h hc _
    rw [writeChunksLoop] at h
    split at h
    · simp at h
    · injection h with h1 h2
      exact h2 ▸ hc
  | succ fuel ih =>
    intro written chunks chunks' c h hc hsafe
    rw [writeChunksLoop] at h
    split at h
    · rename_i hlt
      rcases hsafe with hsafe | hsafe
      swap
      · omega
      simp only [] at h
      split at h
      · simp at h
      · rename_i newData hsb
        have hmod : (offset + written) % CS < CS := Nat.mod_lt _ hCS
        have hdm := Nat.div_add_mod' (offset + written) CS
        have hoff : c.offset ≠ (offset + written) / CS * CS := by omega
        refine ih _ _ _ c h (mem_upsertChunk_of_ne _ _ _ hc (fun hk => hoff hk.2)) ?_
        left
        exact le_trans hsafe (by omega)
    · injection h with h1 h2
      exact h2 ▸ hc

/-- Chunk-layout property of the write loop: every chunk index whose byte
range overlaps the remaining write range `[offset+written, offset+|buf|)`
ends up with a row at the aligned offset `k·CS`, of length `CS` except
when the write ends inside the chunk (then `end − k·CS`, i.e. the
`chunk_offset_in_chunk + write_len` tail rule). -/
lemma writeChunksLoop_rows (CS ino offset : Nat) (hCS : 0 < CS) (buf : List Nat) :
    ∀ (fuel written : Nat) (chunks chunks' : List ChunkRow),
      writeChunksLoop CS ino offset buf fuel written chunks = (.ok (), chunks') →
      ∀ k : Nat, max (offset + written) (k * CS) < min (offset + buf.length) ((k + 1) * CS) →
        ∃ c ∈ chunks', c.ino = ino ∧ c.offset = k * CS ∧
          c.length = min (offset + buf.length - k * CS) CS := by
  intro fuel
  induction fuel with
  | zero =>
    intro written chunks chunks' h k hk
    rw [writeChunksLoop] at h
    split at h
    · simp at h
    · rename_i hge
      have h1 : offset + written ≤ max (offset + written) (k * CS) := Nat.le_max_left _ _
      have h2 : min (offset + buf.length) ((k + 1) * CS) ≤ offset + buf.length :=
        Nat.min_le_left _ _
      omega
  | succ fuel ih =>
    intro written chunks chunks' h k hk
    rw [writeChunksLoop] at h
    split at h
    case isFalse hge =>
      have h1 : offset + written ≤ max (offset + written) (k * CS) := Nat.le_max_left _ _
      have h2 : min (offset + buf.length) ((k + 1) * CS) ≤ offset + buf.length :=
        Nat.min_le_left _ _
      omega
    case isTrue hlt =>
    simp only [] at h
    split at h
    · simp at h
    · rename_i newData hsb
      have hmod : (offset + written) % CS < CS := Nat.mod_lt _ hCS
      have hdm := Nat.div_add_mod' (offset + written) CS
      have hsuccmul : ((offset + written) / CS + 1) * CS = (offset + written) / CS * CS + CS :=
        Nat.succ_mul _ _
      have hwle : min (CS - (offset + written) % CS) (buf.length - written) ≤
          CS - (offset + written) % CS := Nat.min_le_left _ _
      by_cases hcur : k = (offset + written) / CS
      · subst hcur
        obtain ⟨c, hcmem, hcino, hcoff, hclen⟩ := upsertChunk_has chunks
          ⟨ino, (offset + written) / CS * CS,
            newData.take (if (offset + written) % CS +
                min (CS - (offset + written) % CS) (buf.length - written) < CS then
                (offset + written) % CS +
                  min (CS - (offset + written) % CS) (buf.length - written)
              else CS),
            if (offset + written) % CS +
                min (CS - (offset + written) % CS) (buf.length - written) < CS then
              (offset + written) % CS +
                min (CS - (offset + written) % CS) (buf.length - written)
            else CS⟩
        simp only [] at hcino hcoff hclen
        have hsafe : c.offset + CS ≤
            offset + (written + min (CS - (offset + written) % CS) (buf.length - written)) ∨
            buf.length ≤ written + min (CS - (offset + written) % CS) (buf.length - written) := by
          by_cases hless : CS - (offset + written) % CS ≤ buf.length - written
          · left
            rw [hcoff, Nat.min_eq_left hless]
            omega
          · right
            rw [Nat.min_eq_right (by omega)]
            omega
        refine ⟨c, writeChunksLoop_frame CS ino offset hCS buf _ _ _ _ c h hcmem hsafe,
          hcino, hcoff, ?_⟩
        rw [hclen]
        by_cases hless : CS - (offset + written) % CS ≤ buf.length - written
        · rw [Nat.min_eq_left hless, if_neg (by omega), Nat.min_eq_right (by omega)]
        · rw [Nat.min_eq_right (by omega), if_pos (by omega), Nat.min_eq_left (by omega)]
          omega
      · have h1 : offset + written < (k + 1) * CS :=
          lt_of_le_of_lt (Nat.le_max_left _ _) (lt_of_lt_of_le hk (Nat.min_le_right _ _))
        have hk0le : (offset + written) / CS * CS ≤ offset + written := by omega
        have hk0lt : (offset + written) / CS < k + 1 :=
          lt_of_mul_lt_mul_right (lt_of_le_of_lt hk0le h1) (Nat.zero_le CS)
        have hk0k : (offset + written) / CS < k :=
          lt_of_le_of_ne (Nat.lt_succ_iff.mp hk0lt) (fun he => hcur he.symm)
        have hstep : ((offset + written) / CS + 1) * CS ≤ k * CS :=
          Nat.mul_le_mul_right CS hk0k
        have hw' : offset + (written + min (CS - (offset + written) % CS)
            (buf.length - written)) ≤ k * CS := by omega
        refine ih _ _ _ h k ?_
        rw [Nat.max_eq_right hw']
        exact lt_of_le_of_lt (Nat.le_max_right _ _) hk

/-- `create` leaves the chunk table and the meta values untouched. -/
lemma create_preserves {s s2 : FsState} {p : String} {o : CreateOptions} {now : Nat} {u : Unit}
    (h : create s p o now = .ok u s2) :
    s2.chunkSize = s.chunkSize ∧ s2.chunks = s.chunks ∧
      s2.device_size = s.device_size ∧ s2.space_used = s.space_used := by
  rw [create] at h
  split at h
  · simp at h
  · simp only [] at h
    split at h
    · simp at h
    · split at h
      · simp at h
      · injection h with h1 h2
        rw [← h2]
        exact ⟨rfl, rfl, rfl, rfl⟩

/-- Shape of a successful `write`: some state `s2` (the input state, or
the input state with the file freshly created) resolves the path to an
inode, the chunk loop succeeds on it, and the final state is the
accounting refresh over the new chunk table. -/
lemma write_ok_shape {s s' : FsState} {p : String} {data : List Nat} {off? : Option Nat}
    {now : Nat} (h : write s p data off? now = .ok () s') :
    ∃ (s2 : FsState) (i : Nat) (chunks' : List ChunkRow),
      s2.chunkSize = s.chunkSize ∧
      resolvePathToInode s2 p = .ok i ∧
      writeChunksLoop s2.chunkSize i (off?.getD 0) data data.length 0 s2.chunks =
        (.ok (), chunks') ∧
      s' = updateFileSizeAndSpaceUsed { s2 with chunks := chunks' } i := by
  rw [write] at h
  simp only [] at h
  split at h
  · simp at h
  · rename_i ino s2 hresolved
    split at h <;>
    · split at h
      · simp at h
      · split at h
        · simp at h
        · rename_i val chunks' hloop
          injection h with h1 h2
          have hkey : s2.chunkSize = s.chunkSize ∧ resolvePathToInode s2 p = .ok ino := by
            rcases hres : resolvePathToInode s p with e | i
            · cases e
              case ENOENT =>
                simp only [hres] at hresolved
                rcases hcr : create s p {} now with ⟨u, s2''⟩ | ⟨e2, s2''⟩
                · simp only [hcr] at hresolved
                  rcases hres2 : resolvePathToInode s2'' p with e3 | i2
                  · simp only [hres2] at hresolved
                    simp at hresolved
                  · simp only [hres2] at hresolved
                    injection hresolved with ha hb
                    subst hb
                    exact ⟨(create_preserves hcr).1, ha ▸ hres2⟩
                · simp only [hcr] at hresolved
                  simp at hresolved
              all_goals simp only [hres] at hresolved
              all_goals simp at hresolved
            · simp only [hres] at hresolved
              injection hresolved with ha hb
              subst hb
              exact ⟨rfl, ha ▸ hres⟩
          exact ⟨s2, ino, chunks', hkey.1, hkey.2, hloop, h2.symm⟩

/-- Resolution through any state whose files are an
`ino`/`parent`/`name`-preserving image of another's. -/
lemma resolveParts_map_general (s t : FsState) (g : FileRow → FileRow)
    (hfiles : t.files = s.files.map g)
    (hg : ∀ r, (g r).ino = r.ino ∧ (g r).parent = r.parent ∧ (g r).name = r.name) :
    ∀ (l : List String) (par : Nat), resolveParts t l par = resolveParts s l par := by
  intro l par
  have h1 : resolveParts t l par = resolveParts { s with files := s.files.map g } l par :=
    resolveParts_files_eq (by rw [hfiles]) l par
  rw [h1, resolveParts_map s g hg]

/-- `updateFileSizeAndSpaceUsed` only rewrites `attr` fields, so path
resolution is unchanged by it. -/
lemma resolve_updateFileSize (t : FsState) (i : Nat) (p : String) :
    resolvePathToInode (updateFileSizeAndSpaceUsed t i) p = resolvePathToInode t p := by
  rw [resolvePathToInode_eq, resolvePathToInode_eq]
  exact resolveParts_map_general t (updateFileSizeAndSpaceUsed t i) _ rfl
    (fun r => by by_cases hr : (r.ino == i) = true <;> simp [hr]) (pathParts p) 1

/-- C5: after a successful `write(path, data, {offset: off})` the path
resolves to an inode `i` in the final state; every chunk index `k` whose
byte range overlaps `[off, off + |data|)` has a row at the aligned offset
`k·chunk_size` (a multiple of `chunk_size`) whose `length` is
`chunk_size`, except for the tail chunk where it is
`chunk_offset_in_chunk + write_len` — both cases expressed uniformly as
`min (off + |data| − k·chunk_size) chunk_size`; and afterwards
`files.attr.size` of the inode equals the sum of its chunk lengths while
`meta.space_used` equals the sum of all chunk lengths. -/
theorem C5_write_chunk_layout (s s' : FsState) (p : String) (data : List Nat)
    (off now : Nat) (h : write s p data (some off) now = .ok () s') :
    ∃ i, resolvePathToInode s' p = .ok i ∧
      (∀ k : Nat, max off (k * s.chunkSize) < min (off + data.length) ((k + 1) * s.chunkSize) →
        ∃ c ∈ s'.chunks, c.ino = i ∧ c.offset = k * s.chunkSize ∧
          c.offset % s.chunkSize = 0 ∧
          c.length = min (off + data.length - k * s.chunkSize) s.chunkSize) ∧
      (∀ r ∈ s'.files, r.ino = i →
        r.attr.size = sumLengths (s'.chunks.filter (fun c => c.ino == i))) ∧
      s'.space_used = sumLengths s'.chunks := by
  obtain ⟨s2, i, chunks', hcs, hres, hloop, hs'⟩ := write_ok_shape h
  simp only [Option.getD_some] at hloop
  rw [hcs] at hloop
  have hchunks : s'.chunks = chunks' := by rw [hs']; rfl
  refine ⟨i, ?_, ?_, ?_, ?_⟩
  · rw [hs', resolve_updateFileSize]
    rw [resolvePathToInode_eq] at hres ⊢
    exact (resolveParts_files_eq (s := { s2 with chunks := chunks' }) (t := s2) rfl _ _).trans
      hres
  · intro k hk
    rw [hchunks]
    by_cases hCS : 0 < s.chunkSize
    · obtain ⟨c, hcmem, h1, h2, h3⟩ := writeChunksLoop_rows s.chunkSize i off hCS data
        data.length 0 s2.chunks chunks' hloop k (by simpa using hk)
      exact ⟨c, hcmem, h1, h2, by rw [h2]; exact Nat.mul_mod_left k _, h3⟩
    · exfalso
      have h0 : s.chunkSize = 0 := Nat.eq_zero_of_not_pos hCS
      rw [h0] at hk
      rcases data with _ | ⟨b0, brest⟩
      · simp at hk
      · have hzc := writeChunksLoop_zero_cs i off (b0 :: brest) (b0 :: brest).length 0
          s2.chunks (by simp)
        rw [h0] at hloop
        rw [hloop] at hzc
        exact hzc rfl
  · intro r hr hri
    rw [hs', updateFileSizeAndSpaceUsed] at hr
    simp only [] at hr
    obtain ⟨r0, hr0, hup⟩ := List.mem_map.mp hr
    by_cases h0 : (r0.ino == i) = true
    · rw [if_pos h0] at hup
      rw [← hup, hchunks]
    · rw [if_neg (by simpa using h0)] at hup
      rw [← hup] at hri
      exact absurd (by simp [hri] : (r0.ino == i) = true) h0
  · rw [hs']
    rfl

/-! ## C3 — `writeFile` / whole-file `read` round trip

`rmdir` never checks `is_dir`: called on a regular file it deletes the
files row but not the chunk rows, orphaning them.  `allocInode`
(`MAX(ino) + 1`) then reuses the inode for the next created file, which
silently inherits the orphaned chunks — and a fresh `writeFile` no
longer reads back.  With no orphaned chunks the round trip does hold
(theorem below). -/

/-- C3 counterexample: on the reachable state `c3_s2`,
`writeFile("/f", [170])` succeeds (1 byte ≤ device size), yet reading the
whole file back returns 16 bytes — the single written byte followed by
zero fill and the orphaned chunk — not `[170]`. -/
theorem C3_roundtrip_cex :
    isOk c3_r = true ∧ 1 ≤ c3_s2.device_size ∧
      readOp (resState c3_r) "/f" none none =
        .ok [170, 0, 0, 0, 0, 0, 0, 0, 9, 10, 11, 12, 13, 14, 15, 16] ∧
      (([170, 0, 0, 0, 0, 0, 0, 0, 9, 10, 11, 12, 13, 14, 15, 16] : List Nat) ≠ [170]) := by
  decide

/-- The write loop is a no-op once `written` has reached the end. -/
lemma writeChunksLoop_done (CS ino offset : Nat) (buf : List Nat) (fuel written : Nat)
    (chunks : List ChunkRow) (h : ¬ written < buf.length) :
    writeChunksLoop CS ino offset buf fuel written chunks = (.ok (), chunks) := by
  cases fuel <;> rw [writeChunksLoop] <;> rw [if_neg h]

lemma ceil_div_eq {CS k len : Nat} (hCS : 0 < CS) (h1 : k * CS < len)
    (h2 : len ≤ (k + 1) * CS) : (len + CS - 1) / CS = k + 1 := by
  have h3 : (k + 1) * CS = k * CS + CS := Nat.succ_mul _ _
  have h4 : (k + 1 + 1) * CS = (k + 1) * CS + CS := Nat.succ_mul _ _
  exact Nat.div_eq_of_lt_le (by omega) (by omega)

/-- Sorting a list already ascending in `offset` is the identity. -/
lemma sortByOffset_sorted_id :
    ∀ l : List ChunkRow, l.Pairwise (fun a b => a.offset ≤ b.offset) → sortByOffset l = l := by
  intro l
  induction l with
  | nil => intro _; rfl
  | cons c cs ih =>
    intro h
    rcases List.pairwise_cons.mp h with ⟨hhead, htail⟩
    rw [sortByOffset, ih htail]
    cases cs with
    | nil => rfl
    | cons d ds =>
      rw [insertByOffset, if_pos (hhead d (List.mem_cons_self d ds))]

/-- `freshRows` is ascending in `offset`. -/
lemma freshRows_pairwise (CS f : Nat) (data : List Nat) :
    (freshRows CS f data).Pairwise (fun a b => a.offset ≤ b.offset) := by
  rw [freshRows]
  apply List.Pairwise.map
  · intro a b hab
    exact hab
  · exact (List.pairwise_lt_range _).imp
      (fun hab => Nat.mul_le_mul_right CS (Nat.le_of_lt hab))

/-- No row of `base` (foreign inodes) or of the first `k` fresh rows sits
at the key `(f, k·CS)`. -/
lemma fresh_find_none (CS f : Nat) (hCS : 0 < CS) (data : List Nat) (k : Nat)
    (base : List ChunkRow) (hbase : ∀ c ∈ base, c.ino ≠ f) :
    (base ++ (List.range k).map (rowFn CS f data)).find?
      (fun c => c.ino == f && c.offset == k * CS) = none := by
  apply List.find?_eq_none.mpr
  intro c hc hpred
  simp only [Bool.and_eq_true, beq_iff_eq] at hpred
  rcases List.mem_append.mp hc with hcb | hcf
  · exact hbase c hcb hpred.1
  · rcases List.mem_map.mp hcf with ⟨j, hj, rfl⟩
    have hjk : j < k := List.mem_range.mp hj
    have : j * CS < k * CS := (Nat.mul_lt_mul_right hCS).mpr hjk
    have hoff : (rowFn CS f data j).offset = j * CS := rfl
    omega

/-- On a fresh inode (no chunk rows for `f` in `base`), the write loop at
offset 0 appends exactly the `freshRows` of the buffer. -/
lemma writeChunksLoop_fresh (CS f : Nat) (hCS : 0 < CS) (data : List Nat) :
    ∀ (fuel k : Nat) (base : List ChunkRow),
      (∀ c ∈ base, c.ino ≠ f) →
      data.length - k * CS ≤ fuel →
      (k * CS < data.length ∨ k = (data.length + CS - 1) / CS) →
      writeChunksLoop CS f 0 data fuel (k * CS)
        (base ++ (List.range k).map (rowFn CS f data)) =
        (.ok (), base ++ freshRows CS f data) := by
  intro fuel
  induction fuel with
  | zero =>
    intro k base hbase hfuel hk
    have hge : ¬ k * CS < data.length := by omega
    rw [writeChunksLoop_done _ _ _ _ _ _ _ hge]
    rcases hk with hk | hk
    · omega
    · rw [hk, freshRows]
  | succ fuel ih =>
    intro k base hbase hfuel hk
    by_cases hlt : k * CS < data.length
    case neg =>
      rw [writeChunksLoop_done _ _ _ _ _ _ _ hlt]
      rcases hk with hk | hk
      · omega
      · rw [hk, freshRows]
    case pos =>
    have e2 : 0 + k * CS = k * CS := Nat.zero_add _
    have e3 : k * CS / CS * CS = k * CS := by rw [Nat.mul_div_cancel k hCS]
    have e4 : k * CS % CS = 0 := Nat.mul_mod_left k CS
    have hdlen : (data.drop (k * CS)).length = data.length - k * CS := List.length_drop _ _
    have hslice : ((data.drop (k * CS)).take (min CS (data.length - k * CS))).length =
        min CS (data.length - k * CS) := by
      rw [List.length_take, hdlen]
      omega
    have hload : loadChunkL (base ++ (List.range k).map (rowFn CS f data)) f (k * CS) CS =
        List.replicate CS 0 := by
      rw [loadChunkL, fresh_find_none CS f hCS data k base hbase]
    have hsbeq : setBytes (List.replicate CS 0)
        ((data.drop (k * CS)).take (min CS (data.length - k * CS))) 0 =
        some ((data.drop (k * CS)).take (min CS (data.length - k * CS)) ++
          List.replicate (CS - min CS (data.length - k * CS)) 0) := by
      rw [setBytes, if_pos]
      · rw [List.take_zero, List.nil_append, hslice, List.drop_replicate]
        simp
      · rw [hslice, List.length_replicate]
        omega
    have hcl : (if min CS (data.length - k * CS) < CS then
        min CS (data.length - k * CS) else CS) = min CS (data.length - k * CS) := by
      split <;> omega
    have htake : ((data.drop (k * CS)).take (min CS (data.length - k * CS)) ++
        List.replicate (CS - min CS (data.length - k * CS)) 0).take
          (min CS (data.length - k * CS)) =
        (data.drop (k * CS)).take CS := by
      rw [List.take_append_of_le_length (le_of_eq hslice.symm), List.take_take]
      rw [List.take_eq_take, hdlen]
      omega
    have hany : (base ++ (List.range k).map (rowFn CS f data)).any
        (fun c => c.ino == f && c.offset == k * CS) = false := by
      rw [← Bool.not_eq_true, List.any_eq_true]
      rintro ⟨c, hc, hpred⟩
      have := fresh_find_none CS f hCS data k base hbase
      rw [List.find?_eq_none] at this
      exact this c hc hpred
    have hbuilt : (base ++ (List.range k).map (rowFn CS f data)) ++
        [rowFn CS f data k] = base ++ (List.range (k + 1)).map (rowFn CS f data) := by
      rw [List.append_assoc, List.range_succ, List.map_append]
      rfl
    conv_lhs => rw [writeChunksLoop]
    rw [if_pos hlt]
    simp only [e2, e3, e4, Nat.sub_zero, hload, hsbeq, Nat.zero_add]
    rw [hcl, htake]
    rw [upsertChunk, if_neg (by rw [hany]; exact Bool.false_ne_true)]
    have hrow : (⟨f, k * CS, (data.drop (k * CS)).take CS,
        min CS (data.length - k * CS)⟩ : ChunkRow) = rowFn CS f data k := rfl
    rw [hrow, hbuilt]
    by_cases hfull : CS ≤ data.length - k * CS
    · have hwl : min CS (data.length - k * CS) = CS := Nat.min_eq_left hfull
      have hsucc : k * CS + CS = (k + 1) * CS := (Nat.succ_mul k CS).symm
      rw [hwl, hsucc]
      apply ih (k + 1) base hbase
      · have := Nat.succ_mul k CS
        omega
      · by_cases hnext : (k + 1) * CS < data.length
        · exact Or.inl hnext
        · refine Or.inr (ceil_div_eq hCS hlt (by omega)).symm
    · have hwl : min CS (data.length - k * CS) = data.length - k * CS :=
        Nat.min_eq_right (by omega)
      rw [hwl, show k * CS + (data.length - k * CS) = data.length from by omega]
      rw [writeChunksLoop_done _ _ _ _ _ _ _ (lt_irrefl _)]
      have hle : data.length ≤ (k + 1) * CS := by
        have h5 : (k + 1) * CS = k * CS + CS := by rw [Nat.add_mul, Nat.one_mul]
        omega
      have hn : (data.length + CS - 1) / CS = k + 1 := ceil_div_eq hCS hlt hle
      rw [freshRows, hn]

/-- A failed `unlink` leaves the state unchanged. -/
lemma unlink_err_state {s s1 : FsState} {p : String} {e : Err}
    (h : unlink s p = .err e s1) : s1 = s := by
  rw [unlink] at h
  split at h
  · injection h with h1 h2; exact h2.symm
  · split at h
    · injection h with h1 h2; exact h2.symm
    · split at h
      · injection h with h1 h2; exact h2.symm
      · simp only [] at h
        cases h

/-- A successful `unlink` filters one inode out of both tables and
refreshes the accounting. -/
lemma unlink_ok_shape {s s1 : FsState} {p : String} (h : unlink s p = .ok () s1) :
    ∃ i0, s1 = updateFileSizeAndSpaceUsed
      { s with files := s.files.filter (fun r => !(r.ino == i0)),
               chunks := s.chunks.filter (fun c => !(c.ino == i0)) } i0 := by
  rw [unlink] at h
  split at h
  · cases h
  · rename_i ino hres
    split at h
    · cases h
    · split at h
      · cases h
      · simp only [] at h
        injection h with h1 h2
        exact ⟨ino, h2.symm⟩

/-- After the unlink phase of `writeFile` (a successful unlink, or no-op),
every surviving chunk row's inode stays below the next allocation, given
the store had no orphaned chunks. -/
lemma fresh_after_unlink {s s1 : FsState} (p : String) (hno : noOrphans s)
    (h : unlink s p = .ok () s1 ∨ s1 = s) :
    ∀ c ∈ s1.chunks, c.ino < allocInode s1 := by
  intro c hc
  rcases h with h | rfl
  · rcases unlink_ok_shape h with ⟨i0, rfl⟩
    have hc' : c ∈ s.chunks.filter (fun c => !(c.ino == i0)) := hc
    have hmem := List.mem_filter.mp hc'
    have hcne : c.ino ≠ i0 := by simpa using hmem.2
    rcases hno c hmem.1 with ⟨r, hr, hri⟩
    have hrf : r ∈ s.files.filter (fun r => !(r.ino == i0)) :=
      List.mem_filter.mpr ⟨hr, by simp [hri]; omega⟩
    have hrow : ∃ r', r' ∈ (updateFileSizeAndSpaceUsed
        { s with files := s.files.filter (fun r => !(r.ino == i0)),
                 chunks := s.chunks.filter (fun c => !(c.ino == i0)) } i0).files ∧
        r'.ino = r.ino := by
      refine ⟨_, List.mem_map_of_mem _ hrf, ?_⟩
      by_cases hri0 : (r.ino == i0) = true <;> simp [hri0]
    rcases hrow with ⟨r', hr', hr'i⟩
    have := lt_allocInode hr'
    omega
  · rcases hno c hc with ⟨r, hr, hri⟩
    have := lt_allocInode hr
    omega

/-- Shape of a successful `create`: the path has at least one segment, the
parent walk succeeds, the leaf name is free, and the new state appends one
fresh non-directory row. -/
lemma create_ok_shape {s s2 : FsState} {p : String} {o : CreateOptions} {now : Nat}
    (h : create s p o now = .ok () s2) :
    pathParts p ≠ [] ∧ ∃ parent,
      resolveParts s (pathParts p).dropLast 1 = .ok parent ∧
      lookupChild s.files parent (leafName (pathParts p)) = none ∧
      s2 = { s with files := s.files ++
        [⟨allocInode s, leafName (pathParts p), some parent, false,
          mkAttr (allocInode s) now .File (permOf (o.mode.getD 420) (o.umask.getD 0)) 1 0,
          none⟩] } := by
  rw [create] at h
  split at h
  · cases h
  · rename_i hne
    simp only [] at h
    split at h
    · cases h
    · rename_i parent hpar
      split at h
      · cases h
      · rename_i hfree
        injection h with h1 h2
        refine ⟨hne, parent, ?_, hfree, h2.symm⟩
        rw [← resolve_parentPath]
        exact hpar

/-- Appending a row for a free `(parent, leaf)` key makes the path resolve
to the new row's inode. -/
lemma resolve_append_row_leaf (s : FsState) (p : String) (hne : pathParts p ≠ [])
    (parent : Nat) (hpar : resolveParts s (pathParts p).dropLast 1 = .ok parent)
    (row : FileRow) (hrp : row.parent = some parent) (hrn : row.name = leafName (pathParts p))
    (hfree : lookupChild s.files parent (leafName (pathParts p)) = none) :
    resolvePathToInode { s with files := s.files ++ [row] } p = .ok row.ino := by
  rw [resolvePathToInode_eq]
  conv_lhs => rw [parts_eq_dropLast_append _ hne]
  rw [resolveParts_append, resolveParts_append_row s row _ _ _ hpar]
  show resolveParts { s with files := s.files ++ [row] } [leafName (pathParts p)] parent =
    Except.ok row.ino
  rw [resolveParts_single]
  have hproj : ({ s with files := s.files ++ [row] } : FsState).files = s.files ++ [row] := rfl
  rw [hproj]
  have hfind : lookupChild (s.files ++ [row]) parent (leafName (pathParts p)) = some row := by
    rw [lookupChild, List.find?_append]
    rw [lookupChild] at hfree
    rw [hfree]
    simp [hrp, hrn]
  rw [hfind]

/-- After `create` the new path resolves to the inode allocated for it. -/
lemma resolve_after_create {s s2 : FsState} {p : String} {o : CreateOptions} {now : Nat}
    (h : create s p o now = .ok () s2) :
    resolvePathToInode s2 p = .ok (allocInode s) := by
  rcases create_ok_shape h with ⟨hne, parent, hpar, hfree, rfl⟩
  exact resolve_append_row_leaf s p hne parent hpar _ rfl rfl hfree

/-- A successful `write` on a path that already resolves runs the chunk
loop on the input state itself. -/
lemma write_resolved_ok {s2 s' : FsState} {p : String} {data : List Nat} {off? : Option Nat}
    {now i : Nat} (hres : resolvePathToInode s2 p = .ok i)
    (h : write s2 p data off? now = .ok () s') :
    ∃ chunks',
      writeChunksLoop s2.chunkSize i (off?.getD 0) data data.length 0 s2.chunks =
        (.ok (), chunks') ∧
      s' = updateFileSizeAndSpaceUsed { s2 with chunks := chunks' } i := by
  rw [write] at h
  simp only [hres] at h
  split at h <;>
  · split at h
    · cases h
    · split at h
      · cases h
      · rename_i val chunks' hloop
        injection h with h1 h2
        exact ⟨chunks', hloop, h2.symm⟩

/-- Chunk indices strictly below the ceiling start before the end of the
buffer. -/
lemma lt_of_lt_ceil {CS m len : Nat} (hCS : 0 < CS) (hm : m < (len + CS - 1) / CS) :
    m * CS < len := by
  have h1 : (len + CS - 1) / CS * CS ≤ len + CS - 1 := Nat.div_mul_le_self _ _
  have h3 : (m + 1) * CS ≤ ((len + CS - 1) / CS) * CS :=
    Nat.mul_le_mul_right CS hm
  have h4 : (m + 1) * CS = m * CS + CS := by rw [Nat.add_mul, Nat.one_mul]
  generalize hw : (len + CS - 1) / CS * CS = w at h1 h3
  generalize hb : (m + 1) * CS = b at h3 h4
  generalize ha : m * CS = a at h4 ⊢
  omega

/-- The ceiling times the chunk size covers the whole buffer. -/
lemma le_ceil_mul {CS len : Nat} (hCS : 0 < CS) : len ≤ (len + CS - 1) / CS * CS := by
  have h1 := Nat.div_add_mod (len + CS - 1) CS
  have h2 : (len + CS - 1) % CS < CS := Nat.mod_lt _ hCS
  have h3 : CS * ((len + CS - 1) / CS) = (len + CS - 1) / CS * CS := Nat.mul_comm _ _
  generalize hv : CS * ((len + CS - 1) / CS) = v at h1 h3
  generalize hw : (len + CS - 1) / CS * CS = w at h3 ⊢
  generalize hr : (len + CS - 1) % CS = r at h1 h2
  omega

/-- With `chunkSize = 0` a write succeeds only on the empty buffer. -/
lemma freshRows_nil (CS f : Nat) : freshRows CS f ([] : List Nat) = [] := by
  rw [freshRows]
  have h0 : ([] : List Nat).length + CS - 1 = CS - 1 := by simp
  rw [h0]
  rcases CS with _ | k
  · rfl
  · rw [Nat.div_eq_of_lt (by omega)]
    rfl

/-- Running maximum of `offset + |data|` over the first `m` fresh rows. -/
lemma freshRows_foldl_max (CS f : Nat) (hCS : 0 < CS) (data : List Nat) :
    ∀ m, m ≤ (data.length + CS - 1) / CS →
      ((List.range m).map (rowFn CS f data)).foldl
          (fun m c => max m (c.offset + c.data.length)) 0 =
        min (m * CS) data.length := by
  intro m
  induction m with
  | zero => intro _; simp
  | succ m ih =>
    intro hm
    rw [List.range_succ, List.map_append, List.foldl_append, ih (le_trans (Nat.le_succ m) hm)]
    simp only [List.map_cons, List.map_nil, List.foldl_cons, List.foldl_nil]
    have hoff : (rowFn CS f data m).offset = m * CS := rfl
    have hdl : (rowFn CS f data m).data.length = min CS (data.length - m * CS) := by
      show ((data.drop (m * CS)).take CS).length = _
      rw [List.length_take, List.length_drop]
    rw [hoff, hdl]
    have hmlt : m * CS < data.length := lt_of_lt_ceil hCS hm
    have hs : (m + 1) * CS = m * CS + CS := by rw [Nat.add_mul, Nat.one_mul]
    omega

/-- Replaying the first `m` fresh rows into a zero buffer of the file's
length recovers the first `m·CS` bytes. -/
lemma freshRows_assemble (CS f : Nat) (hCS : 0 < CS) (data : List Nat) :
    ∀ m, m ≤ (data.length + CS - 1) / CS →
      ((List.range m).map (rowFn CS f data)).foldl (copyChunkInto 0 data.length)
          (List.replicate data.length 0) =
        data.take (min (m * CS) data.length) ++
          List.replicate (data.length - min (m * CS) data.length) 0 := by
  intro m
  induction m with
  | zero => intro _; simp
  | succ m ih =>
    intro hm
    rw [List.range_succ, List.map_append, List.foldl_append, ih (le_trans (Nat.le_succ m) hm)]
    simp only [List.map_cons, List.map_nil, List.foldl_cons, List.foldl_nil]
    have hmlt : m * CS < data.length := lt_of_lt_ceil hCS hm
    have hmin : min (m * CS) data.length = m * CS := Nat.min_eq_left (le_of_lt hmlt)
    rw [hmin]
    have hco : (rowFn CS f data m).offset = m * CS := rfl
    have hcd : (rowFn CS f data m).data = (data.drop (m * CS)).take CS := rfl
    have hcdl : ((data.drop (m * CS)).take CS).length = min CS (data.length - m * CS) := by
      rw [List.length_take, List.length_drop]
    rw [copyChunkInto]
    simp only [hco, hcd, hcdl]
    have hmax : max 0 (m * CS) = m * CS := Nat.max_eq_right (Nat.zero_le _)
    have hminre : min data.length (m * CS + min CS (data.length - m * CS)) =
        m * CS + min CS (data.length - m * CS) := by omega
    rw [hmax, hminre, if_pos (by omega : m * CS < m * CS + min CS (data.length - m * CS))]
    have h1 : m * CS + min CS (data.length - m * CS) - m * CS =
        min CS (data.length - m * CS) := by omega
    have h2 : m * CS - m * CS = 0 := by omega
    simp only [h1, h2, Nat.sub_zero, List.drop_zero]
    have htl : (data.take (m * CS)).length = m * CS := by
      rw [List.length_take]; omega
    have hA : (data.take (m * CS) ++ List.replicate (data.length - m * CS) 0).take (m * CS) =
        data.take (m * CS) := by
      rw [List.take_append_of_le_length (le_of_eq htl.symm), List.take_take, Nat.min_self]
    have hB : ((data.drop (m * CS)).take CS).take (min CS (data.length - m * CS)) =
        (data.drop (m * CS)).take (min CS (data.length - m * CS)) := by
      rw [List.take_take]
      congr 1
      omega
    have hC : (data.take (m * CS) ++ List.replicate (data.length - m * CS) 0).drop
          (m * CS + min CS (data.length - m * CS)) =
        List.replicate (data.length - m * CS - min CS (data.length - m * CS)) 0 := by
      rw [show m * CS + min CS (data.length - m * CS) =
          (data.take (m * CS)).length + min CS (data.length - m * CS) from by rw [htl],
        List.drop_append, List.drop_replicate]
    rw [hA, hB, hC]
    have hkey : min ((m + 1) * CS) data.length = m * CS + min CS (data.length - m * CS) := by
      have hs : (m + 1) * CS = m * CS + CS := by rw [Nat.add_mul, Nat.one_mul]
      omega
    rw [hkey, List.take_add, List.append_assoc, Nat.sub_sub, List.append_assoc]

/-- The recorded file end of a fresh offset-0 write is the buffer length. -/
lemma freshRows_fileEnd (CS f : Nat) (data : List Nat) (h : 0 < CS ∨ data = []) :
    (freshRows CS f data).foldl (fun m c => max m (c.offset + c.data.length)) 0 =
      data.length := by
  rcases h with hCS | rfl
  · have hfold := freshRows_foldl_max CS f hCS data ((data.length + CS - 1) / CS) (le_refl _)
    rw [freshRows, hfold, Nat.min_eq_right (le_ceil_mul hCS)]
  · rw [freshRows_nil]
    rfl

/-- Replaying all fresh rows into a zero buffer recovers the data. -/
lemma freshRows_read (CS f : Nat) (data : List Nat) (h : 0 < CS ∨ data = []) :
    (freshRows CS f data).foldl (copyChunkInto 0 data.length)
      (List.replicate data.length 0) = data := by
  rcases h with hCS | rfl
  · have hfold := freshRows_assemble CS f hCS data ((data.length + CS - 1) / CS) (le_refl _)
    rw [freshRows, hfold, Nat.min_eq_right (le_ceil_mul hCS), List.take_length,
      Nat.sub_self, List.replicate_zero, List.append_nil]
  · rw [freshRows_nil]
    rfl

/-- Filtering a fresh write's chunk table to the new inode keeps exactly
the fresh rows. -/
lemma filter_fresh (base : List ChunkRow) (f : Nat) (hbase : ∀ c ∈ base, c.ino ≠ f)
    (CS : Nat) (data : List Nat) :
    (base ++ freshRows CS f data).filter (fun c => c.ino == f) = freshRows CS f data := by
  rw [List.filter_append]
  have h1 : base.filter (fun c => c.ino == f) = [] := by
    apply List.filter_eq_nil_iff.mpr
    intro c hc
    simpa using hbase c hc
  have h2 : (freshRows CS f data).filter (fun c => c.ino == f) = freshRows CS f data := by
    apply List.filter_eq_self.mpr
    intro c hc
    rw [freshRows] at hc
    rcases List.mem_map.mp hc with ⟨k, _, rfl⟩
    simp [rowFn]
  rw [h1, h2, List.nil_append]

/-- Round-trip core: once `writeFile` has reached a successful `create`
and `write`, reading the whole file back returns the buffer. -/
lemma writeFile_buf_core (s1 s2 s' : FsState) (p : String) (data : List Nat) (now : Nat)
    (hfresh : ∀ c ∈ s1.chunks, c.ino < allocInode s1)
    (hc : create s1 p ({} : CreateOptions) now = .ok () s2)
    (h : write s2 p data (some 0) now = .ok () s') :
    readOp s' p none none = .ok data := by
  have hres2 : resolvePathToInode s2 p = .ok (allocInode s1) := resolve_after_create hc
  rcases write_resolved_ok hres2 h with ⟨chunks', hloop, hs'⟩
  simp only [Option.getD_some] at hloop
  have hch2 : s2.chunks = s1.chunks := (create_preserves hc).2.1
  have hbase : ∀ c ∈ s2.chunks, c.ino ≠ allocInode s1 := by
    intro c hcmem
    rw [hch2] at hcmem
    have := hfresh c hcmem
    omega
  have hCSor : 0 < s2.chunkSize ∨ data = [] := by
    by_cases hd : data = []
    · exact Or.inr hd
    · left
      rcases Nat.eq_zero_or_pos s2.chunkSize with hcz | hpos
      · exfalso
        rw [hcz] at hloop
        have hz := writeChunksLoop_zero_cs (allocInode s1) 0 data data.length 0 s2.chunks
          (List.length_pos.mpr hd)
        rw [hloop] at hz
        exact hz rfl
      · exact hpos
  have hchunks' : chunks' = s2.chunks ++ freshRows s2.chunkSize (allocInode s1) data := by
    by_cases hd : data = []
    · subst hd
      have hdone := writeChunksLoop_done s2.chunkSize (allocInode s1) 0 []
        (([] : List Nat).length) 0 s2.chunks (by simp)
      rw [hdone] at hloop
      injection hloop with hl1 hl2
      rw [← hl2, freshRows_nil, List.append_nil]
    · have hCS : 0 < s2.chunkSize := by
        rcases hCSor with h' | h'
        · exact h'
        · exact absurd h' hd
      have hfr := writeChunksLoop_fresh s2.chunkSize (allocInode s1) hCS data data.length 0
        s2.chunks hbase (by rw [Nat.zero_mul]; omega)
        (Or.inl (by rw [Nat.zero_mul]; exact List.length_pos.mpr hd))
      rw [Nat.zero_mul, List.range_zero, List.map_nil, List.append_nil] at hfr
      rw [hloop] at hfr
      injection hfr with hf1 hf2
  have hrespost : resolvePathToInode s' p = .ok (allocInode s1) := by
    rw [hs', resolve_updateFileSize]
    have hce : resolvePathToInode { s2 with chunks := chunks' } p =
        resolvePathToInode s2 p := by
      rw [resolvePathToInode_eq, resolvePathToInode_eq]
      exact resolveParts_files_eq
        (show ({ s2 with chunks := chunks' } : FsState).files = s2.files from rfl) _ _
    rw [hce, hres2]
  have hschunks : s'.chunks = s2.chunks ++ freshRows s2.chunkSize (allocInode s1) data := by
    rw [hs']
    show chunks' = _
    exact hchunks'
  rw [readOp, hrespost]
  simp only [Option.getD_none]
  rw [hschunks, filter_fresh s2.chunks (allocInode s1) hbase,
    sortByOffset_sorted_id _ (freshRows_pairwise _ _ _),
    freshRows_fileEnd _ _ _ hCSor, if_neg (Nat.not_lt_zero _), Nat.sub_zero,
    freshRows_read _ _ _ hCSor]

/-- C3 (amended): the write/read round-trip holds for stores without
orphaned chunk rows.  Whenever the store satisfies `noOrphans` (every
chunk row's inode has a files row — true of every store not damaged by
`rmdir`-on-a-file) and `writeFile(p, data)` succeeds, reading the whole
file back yields exactly `data`.  The unamended claim — the round-trip
after any successful `writeFile` whose buffer fits the device — is false:
`C3_roundtrip_cex` exhibits orphaned chunks from `rmdir` on a file, after
which the reused inode makes the read return stale extra bytes. -/
theorem C3_writeFile_read_roundtrip (s s' : FsState) (p : String) (data : List Nat)
    (now : Nat) (hno : noOrphans s) (h : writeFile s p (.buf data) now = .ok () s') :
    readOp s' p none none = .ok data := by
  rw [writeFile] at h
  rcases hu : unlink s p with ⟨u, s1⟩ | ⟨e, s1⟩
  · cases u
    rw [hu] at h
    simp only [] at h
    rcases hc : create s1 p {} now with ⟨u2, s2⟩ | ⟨e2, s2⟩
    · cases u2
      rw [hc] at h
      simp only [] at h
      split at h
      · cases h
      · exact writeFile_buf_core s1 s2 s' p data now
          (fresh_after_unlink p hno (Or.inl hu)) hc h
    · rw [hc] at h
      cases h
  · rw [hu] at h
    cases e
    case ENOENT =>
      have hs1 : s1 = s := unlink_err_state hu
      simp only [] at h
      rcases hc : create s1 p {} now with ⟨u2, s2⟩ | ⟨e2, s2⟩
      · cases u2
        rw [hc] at h
        simp only [] at h
        split at h
        · cases h
        · exact writeFile_buf_core s1 s2 s' p data now
            (fresh_after_unlink p hno (Or.inr hs1)) hc h
      · rw [hc] at h
        cases h
    all_goals cases h

/-- C3 witness: the round-trip theorem applied to writing `[1, 2, 3]` at
`/f` in the fresh store (which has no chunk rows, hence no orphans). -/
theorem C3_writeFile_read_roundtrip_witness :
    noOrphans (initState 8 0) ∧
      readOp (resState (writeFile (initState 8 0) "/f" (.buf [1, 2, 3]) 0)) "/f"
        none none = .ok [1, 2, 3] :=
  ⟨by intro c hc; simp [initState] at hc,
    C3_writeFile_read_roundtrip (initState 8 0) _ "/f" [1, 2, 3] 0
      (by intro c hc; simp [initState] at hc) (by decide)⟩

/-- C5 witness: the layout theorem applied to a 3-byte write at offset 6
(straddling the first chunk boundary) on the concrete file `/t`. -/
theorem C5_write_chunk_layout_witness :
    ∃ i, resolvePathToInode (resState (write c5_s "/t" [20, 21, 22] (some 6) 0)) "/t" =
        .ok i ∧
      (∀ k : Nat, max 6 (k * c5_s.chunkSize) <
          min (6 + [20, 21, 22].length) ((k + 1) * c5_s.chunkSize) →
        ∃ c ∈ (resState (write c5_s "/t" [20, 21, 22] (some 6) 0)).chunks, c.ino = i ∧
          c.offset = k * c5_s.chunkSize ∧ c.offset % c5_s.chunkSize = 0 ∧
          c.length = min (6 + [20, 21, 22].length - k * c5_s.chunkSize) c5_s.chunkSize) ∧
      (∀ r ∈ (resState (write c5_s "/t" [20, 21, 22] (some 6) 0)).files, r.ino = i →
        r.attr.size = sumLengths
          ((resState (write c5_s "/t" [20, 21, 22] (some 6) 0)).chunks.filter
            (fun c => c.ino == i))) ∧
      (resState (write c5_s "/t" [20, 21, 22] (some 6) 0)).space_used =
        sumLengths (resState (write c5_s "/t" [20, 21, 22] (some 6) 0)).chunks :=
  C5_write_chunk_layout c5_s _ "/t" [20, 21, 22] 6 0 (by decide)

/-- C6 (amended): (1) `rename(a, b)` fails `ENOTEMPTY`, leaving the store
untouched, when the source exists and `b` names a non-empty directory.
(2) Whenever `rename(a, b)` succeeds, the source and destination resolve
to distinct `(parent, leaf)` keys, the files table has unique inodes and
unique `(parent, name)` keys, and re-resolution of both parent paths is
undisturbed by the move, then `stat(a)` afterwards fails `ENOENT` and
`stat(b)` afterwards equals the pre-rename `stat(a)` exactly.  (The
as-stated claim fails when `a` and `b` name the same entry — see the
self-rename behavior — or when the moved entry sat on `b`'s parent
path.) -/
theorem C6_rename_contract :
    (∀ (s : FsState) (a b : String) (po pn : Nat) (rowB : FileRow),
      pathParts a ≠ [] → pathParts b ≠ [] →
      resolveParts s (pathParts a).dropLast 1 = .ok po →
      resolveParts s (pathParts b).dropLast 1 = .ok pn →
      (lookupChild s.files po (leafName (pathParts a))).isSome = true →
      lookupChild s.files pn (leafName (pathParts b)) = some rowB →
      rowB.is_dir = true →
      0 < (s.files.filter (fun r => r.parent == some rowB.ino)).length →
      rename s a b = .err .ENOTEMPTY s) ∧
    (∀ (s s' : FsState) (a b : String) (po pn : Nat) (rowA : FileRow),
      (∀ r1 ∈ s.files, ∀ r2 ∈ s.files, r1.ino = r2.ino → r1 = r2) →
      (∀ r1 ∈ s.files, ∀ r2 ∈ s.files, r1.parent = r2.parent → r1.name = r2.name → r1 = r2) →
      pathParts a ≠ [] → pathParts b ≠ [] →
      resolveParts s (pathParts a).dropLast 1 = .ok po →
      resolveParts s (pathParts b).dropLast 1 = .ok pn →
      lookupChild s.files po (leafName (pathParts a)) = some rowA →
      ¬(po = pn ∧ leafName (pathParts a) = leafName (pathParts b)) →
      rename s a b = .ok () s' →
      resolveParts s' (pathParts a).dropLast 1 = .ok po →
      resolveParts s' (pathParts b).dropLast 1 = .ok pn →
      stat s' a = .error .ENOENT ∧ stat s' b = stat s a) :=
  ⟨rename_dest_nonempty_dir, rename_success_stat⟩

/-- C6 witness: `rename("/a", "/d")` onto the non-empty directory fails
`ENOTEMPTY`; the successful `rename("/a", "/b")` moves the `stat`. -/
theorem C6_rename_contract_witness :
    rename c6_s2 "/a" "/d" = .err .ENOTEMPTY c6_s2 ∧
      stat c6_s3 "/a" = .error .ENOENT ∧ stat c6_s3 "/b" = stat c6_s2 "/a" := by
  refine ⟨?_, ?_⟩
  · exact C6_rename_contract.1 c6_s2 "/a" "/d" 1 1 c6_rowD (by decide) (by decide) (by decide)
      (by decide) (by decide) (by decide) (by decide) (by decide)
  · exact C6_rename_contract.2 c6_s2 c6_s3 "/a" "/b" 1 1 c6_rowA (by decide) (by decide)
      (by decide) (by decide) (by decide) (by decide) (by decide) (by decide) (by decide)
      (by decide) (by decide)

/-- The parent-walk stability condition in the rename contract is
necessary: `rename("/d", "/d/x")` succeeds (nothing guards against moving
a directory into its own subtree — the row becomes its own parent), the
two slots are distinct (parents 1 and 2), yet `stat("/d/x")` afterwards
is `ENOENT`: the moved entry sat on the destination's parent path, so the
subtree became unreachable. -/
theorem rename_into_own_subtree_breaks_stat :
    isOk (rename c6_s0 "/d" "/d/x") = true ∧
      stat (resState (rename c6_s0 "/d" "/d/x")) "/d/x" = .error .ENOENT ∧
      stat (resState (rename c6_s0 "/d" "/d/x")) "/d" = .error .ENOENT := by decide

/-- C6 counterexample: `rename("/f", "/f")` on an existing regular file
succeeds, yet afterwards `stat` of the destination path is `ENOENT`
rather than the pre-rename `stat` of the source — the entry is deleted,
so the success half of the rename contract fails when the two paths
coincide. -/
theorem C6_rename_self_cex :
    isOk (rename c9_s1 "/f" "/f") = true ∧
      stat c9_s1 "/f" = .ok (mkStat c9_row) ∧
      stat (resState (rename c9_s1 "/f" "/f")) "/f" = .error .ENOENT := by
  decide

/-- C9 witness: the amended theorem applied to the file `/f`; its row and
its chunk row are deleted and `/f` no longer resolves. -/
theorem C9_self_rename_deletes_witness :
    rename c9_s1 "/f" "/f" = .ok () (selfRenameResult c9_s1 2) ∧
      resolvePathToInode (selfRenameResult c9_s1 2) "/f" = .error .ENOENT :=
  have h := C9_self_rename_deletes c9_s1 "/f" 1 c9_row (by decide) (by decide) (by decide)
    (Or.inl (by decide)) (by decide) (by decide)
  ⟨h.1, h.2.1⟩

/-! ## C1 — `space_used` after `rename` over an existing destination

Write a 3-byte file `/old` and an 8-byte file `/new` (`space_used = 11`),
then `rename("/old", "/new")`.  The rename deletes `/new`'s files row and
its 8-byte chunk row but never refreshes `space_used`, which keeps the
stale value 11 while `Σ chunks.length = 3`. -/

/-- C1: the invariant `meta.space_used = Σ chunks.length` is broken by
`rename` when it deletes an existing destination entry: after the rename
succeeds, `space_used` is still 11 although the chunk lengths sum to 3 —
the reclaimed destination bytes are never accounted. -/
theorem C1_rename_space_used_stale :
    isOk c1_s3 = true ∧ (resState c1_s3).space_used = 11 ∧
      sumLengths (resState c1_s3).chunks = 3 ∧
      (resState c1_s3).space_used ≠ sumLengths (resState c1_s3).chunks := by decide

/-! ## C2 — state after a rejected `writeFile` (`ENOSPC`)

`setDeviceSize(10)` then `writeFile("/big", 11 bytes)`: the source
unlinks, samples the accounting, **creates the file**, and only then
performs the quota check, so the `ENOSPC` rejection leaves a fresh empty
entry at `/big` — the state is not the pre-operation state. -/

/-- C2: the `writeFile` is rejected with `ENOSPC`, yet afterwards an
(empty) entry exists at `/big` — `resolvePathToInode` succeeds with inode
2 and `stat` reports size 0 — so the post-failure state differs from the
pre-operation state, which had no entry at `/big`. -/
theorem C2_enospc_leaves_created_file :
    c2_r = .err .ENOSPC (resState c2_r) ∧
      resolvePathToInode (resState c2_r) "/big" = .ok 2 ∧
      (stat (resState c2_r) "/big").map (fun st => st.size) = .ok 0 ∧
      resState c2_r ≠ c2_s1 := by decide

/-! ## C4 — `truncate` to a non-aligned size

With `chunk_size = 8`, write a 19-byte file `/t` (chunks at offsets 0, 8,
16 of lengths 8, 8, 3) and `truncate("/t", 12)`.  The source deletes all
chunks with `offset ≥ ⌊12/8⌋·8 = 8` — including the chunk at offset 8
that still holds bytes 8..11 — and the subsequent "trim the last partial
chunk" `UPDATE` matches no row, so the file ends up with size 8, not 12,
and a whole-file read returns only the first 8 bytes. -/

/-- C4: after `truncate` to 12 (not a multiple of the chunk size), the
attribute size is 8 — not the requested 12 — and a whole-file read
returns only the first 8 bytes of the prior content: the tail-straddling
chunk was deleted, not trimmed to `12 mod 8 = 4` bytes. -/
theorem C4_truncate_drops_partial_chunk :
    isOk c4_r = true ∧
      (stat (resState c4_r) "/t").map (fun st => st.size) = .ok 8 ∧
      readOp (resState c4_r) "/t" none none = .ok [66, 117, 121, 32, 109, 105, 108, 107] := by
  decide

/-! ## C7 — `mkdir` with `recursive: true`

The source's `mkdir` never reads `options.recursive`; with a missing
intermediate directory it fails `ENOENT` regardless of the flag. -/

/-- C7: on a fresh instance, `mkdir("/a/b")` fails `ENOENT` both with and
without `recursive: true` — the flag is recognized in the options type but
not implemented, so no intermediate directory is created. -/
theorem C7_mkdir_recursive_not_implemented :
    mkdir (initState 8 0) "/a/b" { recursive := some true } 0 =
        .err .ENOENT (initState 8 0) ∧
      mkdir (initState 8 0) "/a/b" {} 0 = .err .ENOENT (initState 8 0) ∧
      resolvePathToInode (initState 8 0) "/a" = .error .ENOENT := by decide

end Dofs
